import Mathlib

/-!
Shallow embedding of the transport/reliability core of the `etherscan-v2-sdk`
TypeScript library (src/core/transport.ts, src/core/types.ts,
src/core/errors.ts, src/core/validators.ts, src/core/cache.ts,
src/resources/account.ts), together with theorems settling the frozen
claims about it.

JavaScript strings are modelled as Lean `String`/`List Char`; JavaScript
numbers that matter to the claims are modelled exactly (`Int`/`Rat`);
`BigInt` is modelled as `Int`; promises/exceptions are modelled with
`Except`/`Option`; the stateful classes are modelled by explicit state
passing.
-/

namespace EtherscanSDK

/-- A model of the JavaScript values that `JSON.parse` can produce, plus
`undefined` (the result of reading an absent object property).  Numbers are
modelled as exact integers: every numeric value the claims exercise is
integral. -/
inductive Json where
  | null
  | undef
  | bool (b : Bool)
  | num (n : Int)
  | str (s : String)
  | arr (elems : List Json)
  | obj (fields : List (String × Json))

/-- JavaScript strict equality `j === s` against a string literal: true
exactly when `j` is a string with that exact content. -/
def Json.isStr (j : Json) (s : String) : Bool :=
  match j with
  | .str t => t == s
  | _ => false

/-- JavaScript truthiness: `undefined`, `null`, `false`, `0` and `""` are
falsy; every object (arrays and plain objects included, even empty ones) is
truthy. -/
def Json.falsy : Json → Bool
  | .null => true
  | .undef => true
  | .bool b => !b
  | .num n => n == 0
  | .str s => s == ""
  | .arr _ => false
  | .obj _ => false

mutual

/-- JavaScript `String(v)` coercion, to the extent the transport exercises it
(the values reaching it in the error branches are strings). Array coercion
joins the stringified elements with commas, as `Array.prototype.toString`
does. -/
def Json.jsToString : Json → String
  | .null => "null"
  | .undef => "undefined"
  | .bool b => if b then "true" else "false"
  | .num n => toString n
  | .str s => s
  | .arr elems => Json.jsToStringJoin elems
  | .obj _ => "[object Object]"

def Json.jsToStringJoin : List Json → String
  | [] => ""
  | [j] => Json.jsToString j
  | j :: rest => Json.jsToString j ++ "," ++ Json.jsToStringJoin rest

end

/-- The JavaScript expression `v || ''` followed by the implicit string
coercion a RegExp test performs: falsy values become the empty string,
anything else is coerced with `String(..)`. -/
def Json.orEmptyString (j : Json) : String :=
  if j.falsy then "" else j.jsToString

/-- Whether `needle` occurs as a contiguous substring of `hay`. -/
def hasSubstr (needle : List Char) : List Char → Bool
  | [] => needle.isPrefixOf []
  | c :: rest => needle.isPrefixOf (c :: rest) || hasSubstr needle rest

/-- ASCII-lowered character list of a string, modelling the effect of a
case-insensitive (`/i`) RegExp match. -/
def lowerChars (s : String) : List Char :=
  s.toList.map Char.toLower

/-- JavaScript RegExp line terminators, which `.` does not match. -/
def isJsLineTerm (c : Char) : Bool :=
  c == '\n' || c == '\r' || c == Char.ofNat 8232 || c == Char.ofNat 8233

/-- Helper for `.*`-separated patterns: `pat2` occurs after a (possibly
empty) run of non-line-terminator characters. -/
def tailMatch (pat2 : List Char) : List Char → Bool
  | [] => pat2.isPrefixOf []
  | c :: rest => pat2.isPrefixOf (c :: rest) || (!isJsLineTerm c && tailMatch pat2 rest)

/-- Matcher for an unanchored RegExp of shape `pat1.*pat2`: some occurrence
of `pat1`, then arbitrary non-line-terminator characters, then `pat2`. -/
def sepMatch (pat1 pat2 : List Char) : List Char → Bool
  | [] => pat1.isPrefixOf [] && tailMatch pat2 []
  | c :: rest =>
      (pat1.isPrefixOf (c :: rest) && tailMatch pat2 (List.drop pat1.length (c :: rest)))
        || sepMatch pat1 pat2 rest

/-- The test `/rate limit/i.test(s)`. -/
def matchesRateLimit (s : String) : Bool :=
  hasSubstr "rate limit".toList (lowerChars s)

/-- The test `/upgrade.*plan/i.test(s)`. -/
def matchesUpgradePlan (s : String) : Bool :=
  sepMatch "upgrade".toList "plan".toList (lowerChars s)

/-- The test `/free.*not supported/i.test(s)`. -/
def matchesFreeNotSupported (s : String) : Bool :=
  sepMatch "free".toList "not supported".toList (lowerChars s)

/-- The typed error taxonomy of `src/core/errors.ts`, restricted to the
constructors the transport's envelope handling can raise.  `api` carries the
raw `data.message` and `data.result` passed to `new APIError(..)`
(the constructor-level message sanitization is not needed by any claim);
`rateLimit` is `new RateLimitError()`; `planUpgrade` carries the
defaulted-to-empty message and result strings passed to
`new PlanUpgradeRequired(..)`; `validation` is `new ValidationError(msg)`;
`etherscan` is a bare `new EtherscanError(message, status, code)`. -/
inductive TransportError where
  | etherscan (message : String) (status : Nat) (code : String)
  | api (message result : Json)
  | rateLimit
  | planUpgrade (message result : String)
  | validation (message : String)

/-- A caller-supplied Zod schema, modelled by what the transport observes of
it: `safeParse` either succeeds with the (possibly transformed) data or
fails with the joined issue text used to build the `ValidationError`
message. -/
def Schema : Type :=
  Json → Except String Json

/-- The parsed `{status, message, result}` envelope of a canonical-endpoint
(V2) JSON response: the three properties read off the object `JSON.parse`
returned (a missing property reads as `undefined`). -/
structure Envelope where
  status : Json
  message : Json
  result : Json

namespace InterceptorManager

/-- `InterceptorManager.applyResponseInterceptors`: left fold of the
registered response interceptors, in registration order, over the value
(`reduce((acc, interceptor) => interceptor(acc), response)`). -/
def applyResponseInterceptors (intcs : List (Json → Json)) (response : Json) : Json :=
  intcs.foldl (fun acc f => f acc) response

end InterceptorManager

namespace Transport

/-- The value-level behaviour of `Transport.getWithUrl` for a canonical
(V2) endpoint whose network layer produced a well-formed JSON body, embedded
from src/core/transport.ts lines 200-356: the cache lookup (`cached` is
`this.cache.get(cacheKey)`), and — on a miss — the envelope handling of the
fetched body `data`: the `status === '0'` branch with its
"No transactions found" sentinel, rate-limit test, plan-upgrade tests and
`APIError` fallback, then schema validation and response interceptors.  The
URL allowlist, HTTPS, HTTP-status, content-type and size checks, the retry
loop (modelled separately by `fetchWithRetry`) and the cache write are
outside this slice; request interceptors only shape `cached`'s key. -/
def getWithUrlEnveloped (intcs : List (Json → Json)) (cached : Option Json)
    (schema : Schema) (data : Envelope) : Except TransportError Json :=
  match cached with
  | some cachedResult => .ok (InterceptorManager.applyResponseInterceptors intcs cachedResult)
  | none =>
    if data.status.isStr "0" then
      if data.message.isStr "No transactions found" then
        if (schema (Json.arr [])).isOk then
          .ok (Json.arr [])
        else
          .ok Json.null
      else if matchesRateLimit data.result.orEmptyString then
        .error .rateLimit
      else
        let message := data.message.orEmptyString
        let result := data.result.orEmptyString
        if matchesUpgradePlan message || matchesUpgradePlan result
            || matchesFreeNotSupported result then
          .error (.planUpgrade message result)
        else
          .error (.api data.message data.result)
    else
      match schema data.result with
      | .error issues =>
          .error (.validation ("Failed to parse Etherscan response: " ++ issues))
      | .ok validatedData =>
          .ok (InterceptorManager.applyResponseInterceptors intcs validatedData)

end Transport

/-! Model of `BigIntSchema` (src/core/types.ts lines 75-85): a Zod string
schema whose transform calls the JavaScript `BigInt(val)` conversion and, on
a thrown `SyntaxError`, records a typed custom issue and returns `z.NEVER`
(so `safeParse` fails).  `BigInt(val)` on a string follows ECMAScript
`StringToBigInt`: strip string whitespace, accept the empty remainder as 0,
otherwise accept an optionally signed decimal digit run or an unsigned
`0x`/`0o`/`0b` radix digit run, evaluating exactly with no magnitude limit,
and throw on anything else. -/

/-- Decimal digit test (`0`-`9`). -/
def isDecDigit (c : Char) : Bool :=
  48 ≤ c.toNat && c.toNat ≤ 57

/-- ECMAScript `StrWhiteSpaceChar`: tab, LF, VT, FF, CR, space, NBSP,
Ogham space, the U+2000-200A range, line/paragraph separators, narrow
no-break space, medium mathematical space, ideographic space, BOM. -/
def isJsWhitespace (c : Char) : Bool :=
  let n := c.toNat
  n == 9 || n == 10 || n == 11 || n == 12 || n == 13 || n == 32 || n == 160
    || n == 5760 || (8192 ≤ n && n ≤ 8202) || n == 8232 || n == 8233
    || n == 8239 || n == 8287 || n == 12288 || n == 65279

/-- Strip leading and trailing ECMAScript whitespace. -/
def trimJsWs (cs : List Char) : List Char :=
  ((cs.dropWhile isJsWhitespace).reverse.dropWhile isJsWhitespace).reverse

/-- Value of a most-significant-first decimal digit run (Horner fold). -/
def digitsToNat (cs : List Char) : Nat :=
  cs.foldl (fun a c => a * 10 + (c.toNat - 48)) 0

/-- `StrUnsignedDecimalLiteral` restricted to BigInt (digits only): a
non-empty all-decimal-digit run evaluates exactly; anything else throws. -/
def decVal (cs : List Char) : Option Nat :=
  if !cs.isEmpty && cs.all isDecDigit then some (digitsToNat cs) else none

/-- `SignedInteger`: an optional sign followed by decimal digits. -/
def decSigned (cs : List Char) : Option Int :=
  match cs with
  | [] => none
  | c :: rest =>
    if c == '+' then (decVal rest).map (fun n => (n : Int))
    else if c == '-' then (decVal rest).map (fun n => -(n : Int))
    else (decVal (c :: rest)).map (fun n => (n : Int))

/-- Digit value of `c` in the given radix (0-9, a-z, A-Z), if within it. -/
def baseDigitVal (base : Nat) (c : Char) : Option Nat :=
  let v : Option Nat :=
    if 48 ≤ c.toNat && c.toNat ≤ 57 then some (c.toNat - 48)
    else if 97 ≤ c.toNat && c.toNat ≤ 122 then some (c.toNat - 87)
    else if 65 ≤ c.toNat && c.toNat ≤ 90 then some (c.toNat - 55)
    else none
  match v with
  | some d => if d < base then some d else none
  | none => none

/-- `NonDecimalIntegerLiteral` digit run: non-empty, all digits of the
radix, evaluated exactly. -/
def radixNat (base : Nat) (cs : List Char) : Option Nat :=
  if cs.isEmpty then none
  else
    cs.foldl
      (fun acc c =>
        match acc, baseDigitVal base c with
        | some a, some d => some (a * base + d)
        | _, _ => none)
      (some 0)

/-- Recognize a `0x`/`0X`/`0o`/`0O`/`0b`/`0B` radix prefix, returning the
radix and the remaining digits. -/
def radixPrefix (cs : List Char) : Option (Nat × List Char) :=
  match cs with
  | c0 :: c1 :: rest =>
    if c0 == '0' && (c1 == 'x' || c1 == 'X') then some (16, rest)
    else if c0 == '0' && (c1 == 'o' || c1 == 'O') then some (8, rest)
    else if c0 == '0' && (c1 == 'b' || c1 == 'B') then some (2, rest)
    else none
  | _ => none

/-- ECMAScript `StringToBigInt(s)`: `some` the exact integer value, `none`
when `BigInt(s)` throws a `SyntaxError`. -/
def stringToBigInt (s : String) : Option Int :=
  let cs := trimJsWs s.toList
  if cs.isEmpty then some 0
  else
    match radixPrefix cs with
    | some (base, rest) => (radixNat base rest).map (fun n => (n : Int))
    | none => decSigned cs

namespace BigIntSchema

/-- `BigIntSchema.safeParse` on a string input: `BigInt(val)` on success,
and on a throw the custom issue `Invalid BigInt value: "<val>"` (the schema
returns `z.NEVER`, so no value — in particular no zero — is produced). -/
def safeParse (s : String) : Except String Int :=
  match stringToBigInt s with
  | some n => .ok n
  | none => .error ("Invalid BigInt value: \x22" ++ s ++ "\x22")

end BigIntSchema

/-! Model of `Transport.fetchWithRetry` / `Transport.isRetryable`
(src/core/transport.ts lines 118-151) and the network-error wrapping of
`getWithUrl` (lines 230-238).  The nondeterministic network is an oracle
`fetchOutcome : Nat → Except JsThrown Nat` giving the outcome of each
attempt (0-based attempt index; a `Response` is an opaque `Nat` id). -/

/-- A JavaScript thrown value: an `Error` object with its `name` and
`message`, or a non-`Error` value (for which `instanceof Error` fails). -/
inductive JsThrown where
  | err (name message : String)
  | nonError

/-- `Transport.isRetryable`: an `Error` whose name is `AbortError` or whose
message contains one of the transient `ECONNRESET` / `ETIMEDOUT` /
`ENOTFOUND` / `ECONNREFUSED` markers; anything that is not an `Error` is
not retryable. -/
def isRetryable : JsThrown → Bool
  | .err name message =>
      name == "AbortError"
        || hasSubstr "ECONNRESET".toList message.toList
        || hasSubstr "ETIMEDOUT".toList message.toList
        || hasSubstr "ENOTFOUND".toList message.toList
        || hasSubstr "ECONNREFUSED".toList message.toList
  | .nonError => false

/-- `err instanceof Error && err.name === 'AbortError'`. -/
def isAbortError : JsThrown → Bool
  | .err name _ => name == "AbortError"
  | .nonError => false

/-- Observable outcome of a `fetchWithRetry` run: its settled value, the
number of fetch attempts performed, and the backoff delays awaited (in
order). -/
structure RetryTrace where
  result : Except JsThrown Nat
  attempts : Nat
  delays : List Nat

namespace Transport

/-- `Transport.fetchWithRetry(url, retries)`: attempt the fetch; on a
thrown retryable error with remaining budget, wait
`retryDelay * (maxRetries - retries + 1)` and recurse with `retries - 1`;
otherwise rethrow.  The attempt performed at budget `retries` is attempt
number `maxRetries - retries` of the oracle; the public entry point calls
it with `retries = maxRetries`. -/
def fetchWithRetry (fetchOutcome : Nat → Except JsThrown Nat)
    (maxRetries retryDelay : Nat) : Nat → RetryTrace
  | 0 =>
    match fetchOutcome (maxRetries - 0) with
    | .ok r => ⟨.ok r, 1, []⟩
    | .error e => ⟨.error e, 1, []⟩
  | (r + 1) =>
    match fetchOutcome (maxRetries - (r + 1)) with
    | .ok v => ⟨.ok v, 1, []⟩
    | .error e =>
      if isRetryable e then
        let t := fetchWithRetry fetchOutcome maxRetries retryDelay r
        ⟨t.result, t.attempts + 1, (retryDelay * (maxRetries - (r + 1) + 1)) :: t.delays⟩
      else ⟨.error e, 1, []⟩

/-- The `try { fetchWithRetry } catch` wrapping in `getWithUrl`: a settled
`AbortError` becomes the typed 408 `TIMEOUT_ERROR`, any other throw the
typed status-0 `NETWORK_ERROR`. -/
def fetchStage (fetchOutcome : Nat → Except JsThrown Nat)
    (maxRetries retryDelay : Nat) : Except TransportError Nat :=
  match (fetchWithRetry fetchOutcome maxRetries retryDelay maxRetries).result with
  | .ok r => .ok r
  | .error e =>
    if isAbortError e then .error (.etherscan "Request Timeout" 408 "TIMEOUT_ERROR")
    else .error (.etherscan "Network Error" 0 "NETWORK_ERROR")

end Transport

/-! Model of `LRUCache` (src/core/cache.ts).  A JS `Map` is a list of
key-entry pairs in insertion order (a real `Map` never holds duplicate
keys, so deletion by key is modelled with `filter`); a JS `Set` of strings
is a list in insertion order without duplicates, whose first element is the
least-recently-used key.  `Date.now()` is passed in explicitly as `now`. -/

/-- `CacheEntry<T>`: stored value, store time, time-to-live (ms). -/
structure CacheEntry (T : Type) where
  data : T
  timestamp : Nat
  ttl : Nat

/-- `CacheConfig`. -/
structure CacheConfig where
  maxSize : Nat
  defaultTtl : Nat
  enabled : Bool

/-- `Partial<CacheConfig>`: absent fields are `none`. -/
structure ConfigPatch where
  maxSize : Option Nat := none
  defaultTtl : Option Nat := none
  enabled : Option Bool := none

/-- The object-spread merge `{ ...cfg, ...patch }`. -/
def applyPatch (cfg : CacheConfig) (p : ConfigPatch) : CacheConfig :=
  { maxSize := p.maxSize.getD cfg.maxSize,
    defaultTtl := p.defaultTtl.getD cfg.defaultTtl,
    enabled := p.enabled.getD cfg.enabled }

/-- `Map.set(k, v)`: update the value in place when `k` is present, append
a fresh entry otherwise. -/
def mapSet {T : Type} (m : List (String × CacheEntry T)) (k : String)
    (v : CacheEntry T) : List (String × CacheEntry T) :=
  if (List.lookup k m).isSome then
    m.map (fun p => if p.1 == k then (p.1, v) else p)
  else
    m ++ [(k, v)]

/-- `Map.delete(k)` / `Set.delete(k)` on the unique occurrence of a key. -/
def mapDelete {T : Type} (m : List (String × CacheEntry T)) (k : String) :
    List (String × CacheEntry T) :=
  m.filter (fun p => !(p.1 == k))

/-- `Set.delete(x)`. -/
def setDelete (l : List String) (k : String) : List String :=
  l.filter (fun x => !(x == k))

/-- `Set.add(x)`: append only when absent. -/
def setAdd (l : List String) (k : String) : List String :=
  if l.contains k then l else l ++ [k]

/-- The `LRUCache<T>` state: the entry `Map`, the access-order `Set`
(front = least recently used) and the configuration. -/
structure LRUCache (T : Type) where
  cache : List (String × CacheEntry T)
  accessOrder : List String
  config : CacheConfig

/-- Keys currently stored, in `Map` insertion order. -/
def cacheKeys {T : Type} (c : LRUCache T) : List String :=
  c.cache.map Prod.fst

namespace LRUCache

/-- The constructor: defaults `maxSize = 1000`, `defaultTtl = 5` minutes,
`enabled = true`, merged with the caller's partial config. -/
def create (T : Type) (p : ConfigPatch) : LRUCache T :=
  ⟨[], [], applyPatch ⟨1000, 300000, true⟩ p⟩

/-- `LRUCache.delete(key)`: remove the map entry; only if one was removed,
also remove the key from the access order.  Returns the updated state and
the `deleted` flag. -/
def deleteKey {T : Type} (c : LRUCache T) (key : String) : LRUCache T × Bool :=
  if (List.lookup key c.cache).isSome then
    ({ c with cache := mapDelete c.cache key,
              accessOrder := setDelete c.accessOrder key }, true)
  else
    (c, false)

/-- `LRUCache.get(key)` at time `now`: disabled or absent reads miss;
expired entries are deleted and miss; a hit refreshes recency (delete +
re-add at the most-recent end) and returns the data. -/
def get {T : Type} (c : LRUCache T) (key : String) (now : Nat) :
    Option T × LRUCache T :=
  if !c.config.enabled then (none, c)
  else
    match List.lookup key c.cache with
    | none => (none, c)
    | some entry =>
      if now - entry.timestamp > entry.ttl then
        (none, (deleteKey c key).1)
      else
        (some entry.data,
         { c with accessOrder := setDelete c.accessOrder key ++ [key] })

/-- The `// Evict if at capacity` block of `LRUCache.set`: when at or
above capacity, read the first access-order key and delete it from map and
set — but only when it is truthy (present and non-empty). -/
def evictIfFull {T : Type} (c : LRUCache T) : LRUCache T :=
  if c.cache.length ≥ c.config.maxSize then
    match c.accessOrder.head? with
    | some lruKey =>
      if lruKey ≠ "" then
        { c with cache := mapDelete c.cache lruKey,
                 accessOrder := setDelete c.accessOrder lruKey }
      else c
    | none => c
  else c

/-- The final insertion of `LRUCache.set`: append the fresh entry to the
map and the key to the access order. -/
def insertNew {T : Type} (c : LRUCache T) (key : String)
    (entry : CacheEntry T) : LRUCache T :=
  { c with cache := c.cache ++ [(key, entry)],
           accessOrder := setAdd c.accessOrder key }

/-- `LRUCache.set(key, value, ttl?)` at time `now`: a no-op when disabled;
an update-in-place (with recency refresh) when the key exists; otherwise
evict if at capacity (`evictIfFull`), then insert (`insertNew`). -/
def set {T : Type} (c : LRUCache T) (key : String) (value : T)
    (ttl : Option Nat) (now : Nat) : LRUCache T :=
  if !c.config.enabled then c
  else if (List.lookup key c.cache).isSome then
    { c with cache := mapSet c.cache key ⟨value, now, ttl.getD c.config.defaultTtl⟩,
             accessOrder := setDelete c.accessOrder key ++ [key] }
  else
    insertNew (evictIfFull c) key ⟨value, now, ttl.getD c.config.defaultTtl⟩

/-- `LRUCache.clear()`. -/
def clear {T : Type} (c : LRUCache T) : LRUCache T :=
  ⟨[], [], c.config⟩

/-- The `while (size > maxSize)` eviction loop of `updateConfig`: each
iteration reads the first access-order key and deletes it only when truthy.
An iteration whose head key is missing or empty makes no progress, so the
JS loop diverges there; the model returns `none` in that case (`fuel`
bounds the productive iterations and is supplied ≥ the entry count). -/
def evictLoop {T : Type} : Nat → LRUCache T → Option (LRUCache T)
  | 0, c => if c.cache.length > c.config.maxSize then none else some c
  | fuel + 1, c =>
    if c.cache.length > c.config.maxSize then
      match c.accessOrder.head? with
      | some lruKey =>
        if lruKey ≠ "" then evictLoop fuel (deleteKey c lruKey).1
        else none
      | none => none
    else some c

/-- Entry into the eviction loop with enough fuel for every entry. -/
def evictToBound {T : Type} (c : LRUCache T) : Option (LRUCache T) :=
  evictLoop (c.cache.length + 1) c

/-- `LRUCache.updateConfig(patch)`: merge the patch; a disabling patch
clears the cache; then evict while over the (possibly shrunk) bound.
`none` models the JS loop never terminating. -/
def updateConfig {T : Type} (c : LRUCache T) (p : ConfigPatch) :
    Option (LRUCache T) :=
  if !(applyPatch c.config p).enabled then
    evictToBound (clear { c with config := applyPatch c.config p })
  else
    evictToBound { c with config := applyPatch c.config p }

end LRUCache

/-- One observable `LRUCache` operation. -/
inductive CacheOp (T : Type) where
  | get (key : String) (now : Nat)
  | set (key : String) (value : T) (ttl : Option Nat) (now : Nat)
  | del (key : String)
  | clear
  | upd (p : ConfigPatch)

/-- Run one operation (state part only). -/
def runOp {T : Type} (c : LRUCache T) : CacheOp T → Option (LRUCache T)
  | .get k now => some (LRUCache.get c k now).2
  | .set k v ttl now => some (LRUCache.set c k v ttl now)
  | .del k => some (LRUCache.deleteKey c k).1
  | .clear => some (LRUCache.clear c)
  | .upd p => LRUCache.updateConfig c p

/-- Run a sequence of operations. -/
def runOps {T : Type} (c : LRUCache T) : List (CacheOp T) → Option (LRUCache T)
  | [] => some c
  | op :: rest =>
    match runOp c op with
    | some c' => runOps c' rest
    | none => none

/-- Well-formedness of an `LRUCache` state: no duplicate map keys, no
duplicate access-order elements, the two key sets coincide, and (for the
amended bound claim) every stored key is a non-empty string. -/
structure CacheWF {T : Type} (c : LRUCache T) : Prop where
  nodupKeys : (cacheKeys c).Nodup
  nodupAO : c.accessOrder.Nodup
  sameMem : ∀ k, k ∈ cacheKeys c ↔ k ∈ c.accessOrder
  keysNe : ∀ k ∈ c.accessOrder, k ≠ ""

/-- The running invariant of the amended C6: well-formed, within the
capacity bound, capacity at least 1. -/
def CacheInv {T : Type} (c : LRUCache T) : Prop :=
  CacheWF c ∧ c.cache.length ≤ c.config.maxSize ∧ 1 ≤ c.config.maxSize

/-- Per-operation side conditions of the amended C6: inserted keys are
non-empty, and configuration updates never set the capacity to 0. -/
def opOK {T : Type} : CacheOp T → Prop
  | .set k _ _ _ => k ≠ ""
  | .upd p => ∀ m, p.maxSize = some m → 1 ≤ m
  | _ => True

/-! Model of `RequestDeduplicator` (src/core/cache.ts).  The pending-request
`Map` sends a request signature to the shared pending promise, modelled by
an opaque promise id allocated from a counter; the `.finally` cleanup
attached to the created promise is the `settle` transition, fired exactly
once when the underlying computation settles (with success or failure
alike). -/

/-- `RequestDeduplicator` state: the in-flight registry plus a fresh
promise-id supply. -/
structure RequestDeduplicator where
  pendingRequests : List (String × Nat)
  nextPromise : Nat

/-- Observable outcome of one `deduplicate` call: the promise handed to
the caller, the post-call registry state, and whether `requestFn` ran. -/
structure DedupCall where
  promise : Nat
  state : RequestDeduplicator
  factoryInvoked : Bool

namespace RequestDeduplicator

/-- `deduplicate(key, requestFn)`: return the existing pending promise
untouched when one exists; otherwise invoke the factory, register the new
promise under the key and return it. -/
def deduplicate (d : RequestDeduplicator) (key : String) : DedupCall :=
  match List.lookup key d.pendingRequests with
  | some p => ⟨p, d, false⟩
  | none =>
      ⟨d.nextPromise,
       ⟨d.pendingRequests ++ [(key, d.nextPromise)], d.nextPromise + 1⟩,
       true⟩

/-- The `.finally` cleanup: on settlement (success or failure) delete the
registry entry for the key. -/
def settle (d : RequestDeduplicator) (key : String) : RequestDeduplicator :=
  ⟨d.pendingRequests.filter (fun p => !(p.1 == key)), d.nextPromise⟩

end RequestDeduplicator

/-- An interleaving event: a caller invoking `deduplicate key`, or the
pending computation for `key` settling. -/
inductive DedupEvent where
  | call (key : String)
  | settle (key : String)

/-- Run a trace of events, logging for each call the key, the promise the
caller received, and whether the factory was invoked. -/
def runDedup : RequestDeduplicator → List DedupEvent →
    RequestDeduplicator × List (String × Nat × Bool)
  | d, [] => (d, [])
  | d, .call k :: rest =>
    let r := d.deduplicate k
    let (d', log) := runDedup r.state rest
    (d', (k, r.promise, r.factoryInvoked) :: log)
  | d, .settle k :: rest => runDedup (d.settle k) rest

/-! Model of `GlobalRateLimiterRegistry` (src/core/transport.ts lines
10-55).  A Bottleneck limiter instance is an opaque id allocated at
creation (its construction options — `minTime = ceil(1000/reqPerSec)`,
`maxConcurrent = 2` and the reservoir settings — are not observed by any
claim); `hashKey` abstracts the SHA-256 hex digest used as the map key and
is a parameter of every operation.  `stopped` logs each `limiter.stop`
call with its `dropWaitingJobs` flag. -/

/-- Registry state: `limiters` maps a credential hash to
`(limiter id, refCount)`; `nextLimiterId` supplies fresh limiter ids;
`stopped` logs stop calls. -/
structure RegistryState where
  limiters : List (String × (Nat × Int))
  nextLimiterId : Nat
  stopped : List (Nat × Bool)

/-- In-place update of the entry for a key (a JS `Map` keeps its
position). -/
def regUpdate (m : List (String × (Nat × Int))) (k : String) (v : Nat × Int) :
    List (String × (Nat × Int)) :=
  m.map (fun q => if q.1 == k then (q.1, v) else q)

namespace GlobalRateLimiterRegistry

/-- `getLimiter(apiKey, ...)`: look up by the hashed credential; create a
fresh limiter with `refCount = 0` when absent; then increment the
reference count and return the (shared) limiter. -/
def getLimiter (hashKey : String → String) (r : RegistryState)
    (apiKey : String) : Nat × RegistryState :=
  match List.lookup (hashKey apiKey) r.limiters with
  | some (lim, refCount) =>
      (lim, { r with limiters := regUpdate r.limiters (hashKey apiKey) (lim, refCount + 1) })
  | none =>
      (r.nextLimiterId,
       { limiters := r.limiters ++ [(hashKey apiKey, (r.nextLimiterId, 0 + 1))],
         nextLimiterId := r.nextLimiterId + 1,
         stopped := r.stopped })

/-- `cleanup(apiKey)`: decrement the reference count of the hashed entry;
at zero (or below) stop the limiter with `dropWaitingJobs: false` and
remove the entry; a missing entry is a no-op. -/
def cleanup (hashKey : String → String) (r : RegistryState)
    (apiKey : String) : RegistryState :=
  match List.lookup (hashKey apiKey) r.limiters with
  | some (lim, refCount) =>
      if refCount - 1 ≤ 0 then
        { limiters := r.limiters.filter (fun q => !(q.1 == hashKey apiKey)),
          nextLimiterId := r.nextLimiterId,
          stopped := r.stopped ++ [(lim, false)] }
      else
        { r with limiters := regUpdate r.limiters (hashKey apiKey) (lim, refCount - 1) }
  | none => r

end GlobalRateLimiterRegistry

/-- A registry interaction: a client construction (acquire) or disposal
(release) with its credential. -/
inductive RegOp where
  | acquire (apiKey : String)
  | release (apiKey : String)

/-- The credential an interaction carries. -/
def RegOp.cred : RegOp → String
  | .acquire k => k
  | .release k => k

/-- Run a sequence of registry interactions. -/
def runReg (hashKey : String → String) : RegistryState → List RegOp → RegistryState
  | r, [] => r
  | r, .acquire k :: rest => runReg hashKey (GlobalRateLimiterRegistry.getLimiter hashKey r k).2 rest
  | r, .release k :: rest => runReg hashKey (GlobalRateLimiterRegistry.cleanup hashKey r k) rest

/-! Model of `Account.getBalance` (src/resources/account.ts lines 17-90)
and the `AddressSchema` / `Validators.addressSchema` machinery it uses
(src/core/types.ts line 88, src/core/validators.ts lines 40-53). -/

/-- Errors a resource method can raise locally: the typed
`ValidationError` of the error taxonomy, or a plain untyped
`new Error(message)`. -/
inductive AccountError where
  | validation (message : String)
  | plain (message : String)

/-- `String.prototype.trim()`. -/
def jsTrim (s : String) : String :=
  String.mk (trimJsWs s.toList)

/-- One hex digit (`[a-fA-F0-9]`). -/
def isHexChar (c : Char) : Bool :=
  (48 ≤ c.toNat && c.toNat ≤ 57) || (97 ≤ c.toNat && c.toNat ≤ 102)
    || (65 ≤ c.toNat && c.toNat ≤ 70)

/-- `AddressSchema`: `/^0x[a-fA-F0-9]{40}$/`. -/
def isAddress (s : String) : Bool :=
  match s.toList with
  | '0' :: 'x' :: rest => rest.length == 40 && rest.all isHexChar
  | _ => false

/-- `Validators.addressSchema(value, fieldName)`: skip falsy values, guard
the raw length at 10000, then validate the address shape, raising the typed
`ValidationError` on failure. -/
def Validators.addressSchemaCheck (value fieldName : String) :
    Except AccountError Unit :=
  if value == "" then .ok ()
  else if value.length > 10000 then
    .error (.validation (fieldName ++ " exceeds maximum length of 10000"))
  else if isAddress value then .ok ()
  else .error (.validation ("Invalid " ++ fieldName ++ ": " ++ value))

/-- The `addresses.forEach((address, index) => ...)` per-address
validation loop of the multi-address branch. -/
def validateEach : List String → Nat → Except AccountError Unit
  | [], _ => .ok ()
  | a :: rest, i =>
    match Validators.addressSchemaCheck a ("address[" ++ toString i ++ "]") with
    | .error e => .error e
    | .ok _ => validateEach rest (i + 1)

/-- `String.prototype.split(sep)` for a one-character separator: split at
every occurrence, keeping empty segments, with `""` splitting to `[""]`. -/
def splitOnChar (sep : Char) : List Char → List (List Char)
  | [] => [[]]
  | c :: rest =>
    if c == sep then [] :: splitOnChar sep rest
    else
      match splitOnChar sep rest with
      | [] => [[c]]
      | h :: t => (c :: h) :: t

/-- `params.address.split(',').map(a => a.trim()).filter(a => a.length > 0)`. -/
def parsedAddresses (address : String) : List String :=
  (((splitOnChar ',' address.toList).map (fun cs => jsTrim (String.mk cs))).filter
    (fun a => a.length > 0))

/-- The network request `getBalance` would hand to the transport: the
`action` (`balance` or `balancemulti`), the address parameter and the tag. -/
structure BalanceRequest where
  action : String
  address : String
  tag : Option String

namespace Account

/-- `Account.getBalance(address, tag?)`: split, trim and drop empty
segments; one address goes to the `balance` endpoint after validation;
several addresses are first counted (hard stop above 20 via a plain
`Error`), each validated, then joined for `balancemulti` with the tag
defaulted to `latest`; no address at all is a plain `Error`.  A returned
`BalanceRequest` is the first point a network call could happen. -/
def getBalance (address : String) (tag : Option String) :
    Except AccountError BalanceRequest :=
  if (parsedAddresses address).length = 1 then
    match Validators.addressSchemaCheck ((parsedAddresses address).headD "") "address" with
    | .error e => .error e
    | .ok _ => .ok ⟨"balance", (parsedAddresses address).headD "", tag⟩
  else if (parsedAddresses address).length > 1 then
    if (parsedAddresses address).length > 20 then
      .error (.plain "Cannot query more than 20 addresses at once")
    else
      match validateEach (parsedAddresses address) 0 with
      | .error e => .error e
      | .ok _ =>
        .ok ⟨"balancemulti", String.intercalate "," (parsedAddresses address),
          some (if tag.getD "" == "" then "latest" else tag.getD "")⟩
  else
    .error (.plain "At least one address is required")

end Account

/-- A comma-joined list of 21 copies of a syntactically valid address. -/
def addr21 : String :=
  String.intercalate "," (List.replicate 21 "0xd8dA6BF26964aF9D7eEd9e03E53415D37aA96045")

/-! Model of `NumberStringSchema` (src/core/types.ts lines 100-103) and
the `BlockCountdownSchema` field that uses it (lines 291-296).  `Number(s)`
follows ECMAScript `StringToNumber`; its non-NaN values are modelled
exactly as rationals (binary64 rounding of the denoted value is not
modelled — the claim only distinguishes NaN from non-NaN and the constant
0), with signed infinities kept separate. -/

/-- A non-NaN JavaScript number: an exact finite value or an infinity. -/
inductive JsNum where
  | finite (q : Rat)
  | posInf
  | negInf

/-- Exponent part of a decimal literal: empty input means exponent 0; a
leading `e`/`E` must be followed by optionally signed digits reaching the
end of the input. -/
def parseExpPart (cs : List Char) : Option Int :=
  match cs with
  | [] => some 0
  | c :: rest =>
    if c == 'e' || c == 'E' then
      match rest with
      | '+' :: ds =>
        if !ds.isEmpty && ds.all isDecDigit then some (digitsToNat ds : Int) else none
      | '-' :: ds =>
        if !ds.isEmpty && ds.all isDecDigit then some (-(digitsToNat ds : Int)) else none
      | ds =>
        if !ds.isEmpty && ds.all isDecDigit then some (digitsToNat ds : Int) else none
    else none

/-- Ten to an integer power, as an exact rational. -/
def ratPow10 (e : Int) : Rat :=
  if 0 ≤ e then ((10 : Rat) ^ e.toNat) else 1 / ((10 : Rat) ^ (-e).toNat)

/-- Exact value of integer digits, fraction digits and exponent. -/
def decimalValue (intPart fracPart : List Char) (e : Int) : Rat :=
  ((digitsToNat intPart : Rat)
      + (digitsToNat fracPart : Rat) / ((10 : Rat) ^ fracPart.length))
    * ratPow10 e

/-- `StrUnsignedDecimalLiteral` without the `Infinity` production: digits,
an optional fraction, an optional exponent, requiring at least one digit
around the decimal point and full consumption of the input. -/
def parseDecimalLiteral (cs : List Char) : Option Rat :=
  match (cs.dropWhile isDecDigit : List Char) with
  | '.' :: rest2 =>
    if (cs.takeWhile isDecDigit).isEmpty && (rest2.takeWhile isDecDigit).isEmpty then
      none
    else
      (parseExpPart (rest2.dropWhile isDecDigit)).map
        (fun e => decimalValue (cs.takeWhile isDecDigit) (rest2.takeWhile isDecDigit) e)
  | rest1 =>
    if (cs.takeWhile isDecDigit).isEmpty then none
    else (parseExpPart rest1).map (fun e => decimalValue (cs.takeWhile isDecDigit) [] e)

/-- `StrUnsignedDecimalLiteral`: `Infinity` or a decimal literal, under an
already-consumed sign. -/
def parseUnsignedDec (cs : List Char) (neg : Bool) : Option JsNum :=
  if cs == "Infinity".toList then some (if neg then .negInf else .posInf)
  else
    match parseDecimalLiteral cs with
    | some q => some (.finite (if neg then -q else q))
    | none => none

/-- `StrDecimalLiteral`: optional sign then unsigned decimal. -/
def parseStrDecimal (cs : List Char) : Option JsNum :=
  match cs with
  | '+' :: rest => parseUnsignedDec rest false
  | '-' :: rest => parseUnsignedDec rest true
  | _ => parseUnsignedDec cs false

/-- ECMAScript `StringToNumber(s)` up to binary64 rounding: `none` is NaN;
whitespace-only input is 0; otherwise a radix literal or a signed decimal
literal. -/
def jsToNumber (s : String) : Option JsNum :=
  let cs := trimJsWs s.toList
  if cs.isEmpty then some (.finite 0)
  else
    match radixPrefix cs with
    | some (base, rest) => (radixNat base rest).map (fun n => .finite (n : Rat))
    | none => parseStrDecimal cs

namespace NumberStringSchema

/-- `NumberStringSchema`: `z.string().transform(val => { const num =
Number(val); return isNaN(num) ? 0 : num; })` — a total transform that
silently maps NaN to the number 0. -/
def parse (s : String) : JsNum :=
  match jsToNumber s with
  | none => .finite 0
  | some v => v

end NumberStringSchema

/-- The raw string fields of a block-countdown envelope payload. -/
structure BlockCountdownRaw where
  CurrentBlock : String
  CountdownBlock : String
  RemainingBlock : String
  EstimateTimeInSec : String

/-- The parsed block-countdown object. -/
structure BlockCountdown where
  CurrentBlock : String
  CountdownBlock : String
  RemainingBlock : JsNum
  EstimateTimeInSec : String

namespace BlockCountdownSchema

/-- `BlockCountdownSchema`: plain string fields pass through; the
`RemainingBlock` count field goes through `NumberStringSchema`. -/
def parse (r : BlockCountdownRaw) : BlockCountdown :=
  ⟨r.CurrentBlock, r.CountdownBlock,
   NumberStringSchema.parse r.RemainingBlock, r.EstimateTimeInSec⟩

end BlockCountdownSchema

/-- C1 counterexample: an enveloped failure whose **message** contains
"rate limit" but whose result field does not (here the falsy `""`) is raised
as a generic `APIError`, not as `RateLimitError` — the code only tests
`data.result` against `/rate limit/i`. -/
theorem C1_counterexample :
    Transport.getWithUrlEnveloped [] none (fun j => .ok j)
        ⟨.str "0", .str "You have hit the Rate Limit", .str ""⟩
      = .error (.api (.str "You have hit the Rate Limit") (.str "")) ∧
    Transport.getWithUrlEnveloped [] none (fun j => .ok j)
        ⟨.str "0", .str "You have hit the Rate Limit", .str ""⟩
      ≠ .error .rateLimit := by
  refine ⟨rfl, fun h => ?_⟩
  rw [show Transport.getWithUrlEnveloped [] none (fun j => .ok j)
        ⟨.str "0", .str "You have hit the Rate Limit", .str ""⟩
      = .error (.api (.str "You have hit the Rate Limit") (.str "")) from rfl] at h
  exact TransportError.noConfusion (congrArg (fun e =>
    match e with
    | .error x => x
    | .ok _ => .rateLimit) h)

/-- C1 (amended): for every enveloped canonical-endpoint response with
failure status whose message is not the empty-result sentinel, if the
**result field** (defaulted to the empty string when falsy) contains
"rate limit" in any letter case, `Transport.getWithUrl` raises the typed
`RateLimitError`.  Matching on the message alone does not trigger it. -/
theorem C1_rate_limit_from_result_field (intcs : List (Json → Json)) (schema : Schema)
    (data : Envelope)
    (hst : data.status.isStr "0" = true)
    (hmsg : data.message.isStr "No transactions found" = false)
    (hrl : matchesRateLimit data.result.orEmptyString = true) :
    Transport.getWithUrlEnveloped intcs none schema data = .error .rateLimit := by
  unfold Transport.getWithUrlEnveloped
  simp [hst, hmsg, hrl]

/-- C1 witness: a concrete rate-limited envelope raising `RateLimitError`. -/
theorem C1_rate_limit_from_result_field_witness :
    Transport.getWithUrlEnveloped [] none (fun j => .ok j)
        ⟨.str "0", .str "NOTOK",
          .str "Max rate limit reached, please use API Key for higher rate limit"⟩
      = .error .rateLimit :=
  C1_rate_limit_from_result_field [] (fun j => .ok j) _ rfl rfl (by decide)

/-- C2 counterexample: with one registered response interceptor (constantly
`"X"`), the empty-result sentinel branch returns `[]` directly — the
returned value is not the interceptor chain applied to the underlying value
`[]`, so interceptors do **not** run on that call path. -/
theorem C2_counterexample :
    Transport.getWithUrlEnveloped [fun _ => Json.str "X"] none (fun j => .ok j)
        ⟨.str "0", .str "No transactions found", .str ""⟩ = .ok (Json.arr []) ∧
    InterceptorManager.applyResponseInterceptors [fun _ => Json.str "X"] (Json.arr [])
      = Json.str "X" ∧
    Json.arr [] ≠ Json.str "X" :=
  ⟨rfl, rfl, fun h => Json.noConfusion h⟩

/-- C2 (amended): the value `Transport.getWithUrl` returns is the result of
applying all registered response interceptors, in registration order, to the
underlying value on the cache-hit path and on the fresh-network
validated-success path; the empty-result sentinel branch, by contrast,
returns `[]`/`null` without passing through the interceptor chain. -/
theorem C2_interceptors_on_cache_and_network_paths (intcs : List (Json → Json))
    (schema : Schema) (data : Envelope) (u : Json) :
    (∀ v : Json, Transport.getWithUrlEnveloped intcs (some v) schema data
        = .ok (InterceptorManager.applyResponseInterceptors intcs v))
    ∧ (data.status.isStr "0" = false → schema data.result = .ok u →
        Transport.getWithUrlEnveloped intcs none schema data
          = .ok (InterceptorManager.applyResponseInterceptors intcs u)) := by
  refine ⟨fun v => rfl, fun hst hok => ?_⟩
  unfold Transport.getWithUrlEnveloped
  simp [hst, hok]

/-- C2 witness: concrete cache-hit and network-success calls both return the
interceptor-transformed value. -/
theorem C2_interceptors_on_cache_and_network_paths_witness :
    (∀ v : Json, Transport.getWithUrlEnveloped [fun _ => Json.str "X"] (some v)
        (fun j => .ok j) ⟨.str "1", .str "OK", .str "42"⟩
        = .ok (InterceptorManager.applyResponseInterceptors [fun _ => Json.str "X"] v))
    ∧ (Json.isStr (Json.str "1") "0" = false →
        (fun j => (.ok j : Except String Json)) (Json.str "42") = .ok (Json.str "42") →
        Transport.getWithUrlEnveloped [fun _ => Json.str "X"] none
          (fun j => .ok j) ⟨.str "1", .str "OK", .str "42"⟩
          = .ok (InterceptorManager.applyResponseInterceptors [fun _ => Json.str "X"]
              (Json.str "42"))) :=
  C2_interceptors_on_cache_and_network_paths [fun _ => Json.str "X"] (fun j => .ok j)
    ⟨.str "1", .str "OK", .str "42"⟩ (Json.str "42")

/-- C3: an enveloped failure whose message is exactly the sentinel
"No transactions found" never raises: if the caller-supplied schema accepts
the empty array the call returns `[]`, otherwise it returns the `null`
placeholder for the schema to interpret. -/
theorem C3_empty_result_sentinel (intcs : List (Json → Json)) (schema : Schema)
    (data : Envelope)
    (hst : data.status.isStr "0" = true)
    (hmsg : data.message.isStr "No transactions found" = true) :
    ((schema (Json.arr [])).isOk = true →
      Transport.getWithUrlEnveloped intcs none schema data = .ok (Json.arr []))
    ∧ ((schema (Json.arr [])).isOk = false →
      Transport.getWithUrlEnveloped intcs none schema data = .ok Json.null) := by
  constructor <;> intro hsch <;>
    · unfold Transport.getWithUrlEnveloped
      simp [hst, hmsg, hsch]

/-- C3 witness: the sentinel envelope against an array-accepting schema
yields `[]`, and against an array-rejecting schema yields `null`. -/
theorem C3_empty_result_sentinel_witness :
    ((Except.isOk ((fun j => (.ok j : Except String Json)) (Json.arr [])) = true →
      Transport.getWithUrlEnveloped [] none (fun j => .ok j)
        ⟨.str "0", .str "No transactions found", .str ""⟩ = .ok (Json.arr []))
    ∧ (Except.isOk ((fun j => (.ok j : Except String Json)) (Json.arr [])) = false →
      Transport.getWithUrlEnveloped [] none (fun j => .ok j)
        ⟨.str "0", .str "No transactions found", .str ""⟩ = .ok Json.null)) :=
  C3_empty_result_sentinel [] (fun j => .ok j)
    ⟨.str "0", .str "No transactions found", .str ""⟩ rfl rfl

/-- Decimal digits carry no ECMAScript whitespace. -/
theorem isJsWhitespace_eq_false_of_isDecDigit {c : Char} (h : isDecDigit c = true) :
    isJsWhitespace c = false := by
  have h' : 48 ≤ c.toNat ∧ c.toNat ≤ 57 := by
    simpa [isDecDigit, Bool.and_eq_true, decide_eq_true_eq] using h
  simp only [isJsWhitespace, Bool.or_eq_false_iff, beq_eq_false_iff_ne, ne_eq,
    Bool.and_eq_false_iff, decide_eq_false_iff_not, not_le]
  omega

/-- A decimal digit is never strictly-equal to a character outside the
digit block. -/
theorem isDecDigit_beq_eq_false (c d : Char) (h : isDecDigit c = true)
    (hd : d.toNat < 48 ∨ 57 < d.toNat) : (c == d) = false := by
  rw [beq_eq_false_iff_ne]
  intro e
  subst e
  simp only [isDecDigit, Bool.and_eq_true, decide_eq_true_eq] at h
  omega

/-- Trimming is the identity on whitespace-free character lists. -/
theorem trimJsWs_of_no_ws (cs : List Char) (h : ∀ c ∈ cs, isJsWhitespace c = false) :
    trimJsWs cs = cs := by
  unfold trimJsWs
  have h1 : cs.dropWhile isJsWhitespace = cs := by
    cases cs with
    | nil => rfl
    | cons c rest => simp [List.dropWhile, h c (by simp)]
  rw [h1]
  have h2 : cs.reverse.dropWhile isJsWhitespace = cs.reverse := by
    cases hr : cs.reverse with
    | nil => rfl
    | cons c rest =>
      have hc : c ∈ cs := by
        rw [← List.mem_reverse, hr]
        simp
      simp [List.dropWhile, h c hc]
  rw [h2, List.reverse_reverse]

/-- The Horner fold agrees with the little-endian positional interpretation
of the digit values. -/
theorem digitsToNat_eq_ofDigits (cs : List Char) :
    digitsToNat cs = Nat.ofDigits 10 ((cs.map fun c => c.toNat - 48).reverse) := by
  induction cs using List.reverseRecOn with
  | nil => rfl
  | append_singleton cs c ih =>
    rw [digitsToNat, List.foldl_append]
    simp only [List.foldl]
    rw [← digitsToNat, ih, List.map_append, List.reverse_append]
    simp [Nat.ofDigits_cons]
    ring

/-- An all-digit run is accepted by the signed-decimal production with its
exact decimal value. -/
theorem decSigned_of_digits (cs : List Char) (hne : cs ≠ [])
    (hdig : cs.all isDecDigit = true) :
    decSigned cs = some ((digitsToNat cs : Nat) : Int) := by
  match cs with
  | [] => exact absurd rfl hne
  | c :: rest =>
    have hc : isDecDigit c = true := by
      have := List.all_eq_true.mp hdig c (by simp)
      simpa using this
    rw [decSigned]
    rw [isDecDigit_beq_eq_false c '+' hc (by decide),
      isDecDigit_beq_eq_false c '-' hc (by decide)]
    simp only [Bool.false_eq_true, if_false]
    rw [decVal, if_pos]
    · rfl
    · simp [hdig]

/-- An all-digit run carries no radix prefix. -/
theorem radixPrefix_of_digits (cs : List Char) (hdig : cs.all isDecDigit = true) :
    radixPrefix cs = none := by
  match cs with
  | [] => rfl
  | [c] => rfl
  | c0 :: c1 :: rest =>
    have hc1 : isDecDigit c1 = true := by
      have := List.all_eq_true.mp hdig c1 (by simp)
      simpa using this
    rw [radixPrefix]
    rw [isDecDigit_beq_eq_false c1 'x' hc1 (by decide),
      isDecDigit_beq_eq_false c1 'X' hc1 (by decide),
      isDecDigit_beq_eq_false c1 'o' hc1 (by decide),
      isDecDigit_beq_eq_false c1 'O' hc1 (by decide),
      isDecDigit_beq_eq_false c1 'b' hc1 (by decide),
      isDecDigit_beq_eq_false c1 'B' hc1 (by decide)]
    simp

/-- `BigInt` of a non-empty all-decimal-digit string is its exact value. -/
theorem stringToBigInt_of_digits (s : String) (hlne : s.toList ≠ [])
    (hdig : s.toList.all isDecDigit = true) :
    stringToBigInt s = some ((digitsToNat s.toList : Nat) : Int) := by
  have hnw : ∀ c ∈ s.toList, isJsWhitespace c = false := fun c hc =>
    isJsWhitespace_eq_false_of_isDecDigit (by simpa using List.all_eq_true.mp hdig c hc)
  have htrim : trimJsWs s.toList = s.toList := trimJsWs_of_no_ws _ hnw
  rw [stringToBigInt]
  simp only [htrim]
  rw [if_neg (by simpa [List.isEmpty_iff] using hlne)]
  rw [radixPrefix_of_digits _ hdig]
  exact decSigned_of_digits _ hlne hdig

/-- C4: parsing a non-empty string of decimal digits through the monetary
`BigIntSchema` yields exactly the denoted decimal value (the positional
interpretation of its digits, with no magnitude bound and no rounding), and
parsing any string `BigInt` cannot convert fails with the typed custom
issue — never a silent zero. -/
theorem C4_bigint_schema_exact (s : String) :
    (s.toList ≠ [] → s.toList.all isDecDigit = true →
      BigIntSchema.safeParse s
        = .ok ((Nat.ofDigits 10 ((s.toList.map fun c => c.toNat - 48).reverse) : Nat) : Int))
    ∧ (stringToBigInt s = none →
      BigIntSchema.safeParse s = .error ("Invalid BigInt value: \x22" ++ s ++ "\x22")) := by
  constructor
  · intro hlne hdig
    rw [BigIntSchema.safeParse, stringToBigInt_of_digits s hlne hdig,
      digitsToNat_eq_ofDigits]
  · intro h
    rw [BigIntSchema.safeParse, h]

/-- C4 witness: the 2^53 + 1 digit string parses to exactly 2^53 + 1 (no
float could represent it), and the unparsable "abc" yields the typed issue,
not zero. -/
theorem C4_bigint_schema_exact_witness :
    BigIntSchema.safeParse "9007199254740993"
      = .ok ((Nat.ofDigits 10
          ((("9007199254740993".toList.map fun c => c.toNat - 48)).reverse) : Nat) : Int)
    ∧ BigIntSchema.safeParse "9007199254740993" = .ok 9007199254740993
    ∧ BigIntSchema.safeParse "abc" = .error ("Invalid BigInt value: \x22abc\x22") :=
  ⟨(C4_bigint_schema_exact "9007199254740993").1 (by decide) (by decide),
   by rfl,
   (C4_bigint_schema_exact "abc").2 (by rfl)⟩

/-- When every attempt in the remaining budget fails with a retryable
error, the run performs `budget + 1` attempts, waits the arithmetically
growing backoffs, and settles on a retryable error. -/
theorem fetchWithRetry_exhaust (fo : Nat → Except JsThrown Nat)
    (maxRetries retryDelay : Nat) :
    ∀ r, r ≤ maxRetries →
      (∀ i, maxRetries - r ≤ i → i ≤ maxRetries →
        ∃ e, fo i = .error e ∧ isRetryable e = true) →
      (Transport.fetchWithRetry fo maxRetries retryDelay r).attempts = r + 1
      ∧ (Transport.fetchWithRetry fo maxRetries retryDelay r).delays
          = (List.range r).map (fun k => retryDelay * (maxRetries - r + k + 1))
      ∧ ∃ e, (Transport.fetchWithRetry fo maxRetries retryDelay r).result = .error e
          ∧ isRetryable e = true := by
  intro r
  induction r with
  | zero =>
    intro _ hfail
    obtain ⟨e, he, hr⟩ := hfail maxRetries (by omega) (le_refl _)
    refine ⟨?_, ?_, e, ?_, hr⟩ <;>
      simp [Transport.fetchWithRetry, Nat.sub_zero, he]
  | succ k ih =>
    intro hle hfail
    obtain ⟨e, he, hr⟩ := hfail (maxRetries - (k + 1)) (le_refl _) (by omega)
    obtain ⟨ha, hd, e', hres, hr'⟩ := ih (by omega) (fun i h1 h2 => hfail i (by omega) h2)
    have heq : Transport.fetchWithRetry fo maxRetries retryDelay (k + 1)
        = ⟨(Transport.fetchWithRetry fo maxRetries retryDelay k).result,
           (Transport.fetchWithRetry fo maxRetries retryDelay k).attempts + 1,
           (retryDelay * (maxRetries - (k + 1) + 1))
             :: (Transport.fetchWithRetry fo maxRetries retryDelay k).delays⟩ := by
      simp [Transport.fetchWithRetry, he, hr]
    have hatt : (Transport.fetchWithRetry fo maxRetries retryDelay (k + 1)).attempts
        = (Transport.fetchWithRetry fo maxRetries retryDelay k).attempts + 1 := by
      rw [heq]
    have hdel : (Transport.fetchWithRetry fo maxRetries retryDelay (k + 1)).delays
        = (retryDelay * (maxRetries - (k + 1) + 1))
            :: (Transport.fetchWithRetry fo maxRetries retryDelay k).delays := by
      rw [heq]
    have hresq : (Transport.fetchWithRetry fo maxRetries retryDelay (k + 1)).result
        = (Transport.fetchWithRetry fo maxRetries retryDelay k).result := by
      rw [heq]
    refine ⟨?_, ?_, e', ?_, hr'⟩
    · rw [hatt, ha]
    · have hlist : (retryDelay * (maxRetries - (k + 1) + 1))
            :: (List.range k).map (fun x => retryDelay * (maxRetries - k + x + 1))
          = (List.range (k + 1)).map (fun x => retryDelay * (maxRetries - (k + 1) + x + 1)) := by
        rw [List.range_succ_eq_map, List.map_cons, List.map_map]
        simp only [List.cons.injEq]
        refine ⟨trivial, ?_⟩
        apply List.map_congr_left
        intro x _
        show retryDelay * (maxRetries - k + x + 1)
          = retryDelay * (maxRetries - (k + 1) + (x + 1) + 1)
        have h : maxRetries - k + x + 1 = maxRetries - (k + 1) + (x + 1) + 1 := by omega
        rw [h]
      rw [hdel, hd, hlist]
    · rw [hresq]
      exact hres

/-- C5: against a persistently retryable-failing network the transport
performs exactly `1 + maxRetries` attempts with backoff
`retryDelay * attemptNumber` before the `attemptNumber`-th retry and then
raises the typed timeout or network error; a single transient failure
followed by a success yields the success in exactly 2 attempts; a
non-retryable error is not retried (1 attempt). -/
theorem C5_retry_and_backoff (foA foB foC : Nat → Except JsThrown Nat)
    (maxRetries retryDelay : Nat) (eB eC : JsThrown) (v : Nat)
    (hA : ∀ i, i ≤ maxRetries → ∃ e, foA i = .error e ∧ isRetryable e = true)
    (hB0 : foB 0 = .error eB) (hBr : isRetryable eB = true) (hB1 : foB 1 = .ok v)
    (hm : 1 ≤ maxRetries)
    (hC0 : foC 0 = .error eC) (hCr : isRetryable eC = false) :
    ((Transport.fetchWithRetry foA maxRetries retryDelay maxRetries).attempts
        = 1 + maxRetries
      ∧ (Transport.fetchWithRetry foA maxRetries retryDelay maxRetries).delays
          = (List.range maxRetries).map (fun k => retryDelay * (k + 1))
      ∧ (Transport.fetchStage foA maxRetries retryDelay
            = .error (.etherscan "Request Timeout" 408 "TIMEOUT_ERROR")
          ∨ Transport.fetchStage foA maxRetries retryDelay
            = .error (.etherscan "Network Error" 0 "NETWORK_ERROR")))
    ∧ ((Transport.fetchWithRetry foB maxRetries retryDelay maxRetries).result = .ok v
      ∧ (Transport.fetchWithRetry foB maxRetries retryDelay maxRetries).attempts = 2
      ∧ (Transport.fetchWithRetry foB maxRetries retryDelay maxRetries).delays
          = [retryDelay * 1])
    ∧ ((Transport.fetchWithRetry foC maxRetries retryDelay maxRetries).result = .error eC
      ∧ (Transport.fetchWithRetry foC maxRetries retryDelay maxRetries).attempts = 1) := by
  refine ⟨?_, ?_, ?_⟩
  · obtain ⟨ha, hd, e, hres, hre⟩ :=
      fetchWithRetry_exhaust foA maxRetries retryDelay maxRetries (le_refl _)
        (fun i _ h2 => hA i h2)
    refine ⟨by omega, ?_, ?_⟩
    · rw [hd]
      apply List.map_congr_left
      intro x _
      congr 1
      omega
    · rw [Transport.fetchStage, hres]
      cases hab : isAbortError e with
      | true => exact Or.inl (by simp [hab])
      | false => exact Or.inr (by simp [hab])
  · obtain ⟨k, rfl⟩ : ∃ k, maxRetries = k + 1 := ⟨maxRetries - 1, by omega⟩
    have h0 : k + 1 - (k + 1) = 0 := by omega
    cases k with
    | zero =>
      refine ⟨?_, ?_, ?_⟩ <;>
        simp [Transport.fetchWithRetry, h0, hB0, hBr, hB1]
    | succ k' =>
      have h1 : k' + 1 + 1 - (k' + 1) = 1 := by omega
      refine ⟨?_, ?_, ?_⟩ <;>
        simp [Transport.fetchWithRetry, h0, h1, hB0, hBr, hB1]
  · cases hmr : maxRetries with
    | zero => exact ⟨by simp [Transport.fetchWithRetry, hC0], by
        simp [Transport.fetchWithRetry, hC0]⟩
    | succ k =>
      have h0 : k + 1 - (k + 1) = 0 := by omega
      exact ⟨by simp [Transport.fetchWithRetry, h0, hC0, hCr], by
        simp [Transport.fetchWithRetry, h0, hC0, hCr]⟩

/-- C5 witness: concrete oracles — a permanent connection reset, a single
reset followed by a success, and a non-retryable `TypeError` — with the
default budget of 3 retries and 1000ms base delay. -/
theorem C5_retry_and_backoff_witness :
    ((Transport.fetchWithRetry (fun _ => .error (.err "Error" "read ECONNRESET"))
          3 1000 3).attempts = 1 + 3
      ∧ (Transport.fetchWithRetry (fun _ => .error (.err "Error" "read ECONNRESET"))
          3 1000 3).delays = (List.range 3).map (fun k => 1000 * (k + 1))
      ∧ (Transport.fetchStage (fun _ => .error (.err "Error" "read ECONNRESET")) 3 1000
            = .error (.etherscan "Request Timeout" 408 "TIMEOUT_ERROR")
          ∨ Transport.fetchStage (fun _ => .error (.err "Error" "read ECONNRESET")) 3 1000
            = .error (.etherscan "Network Error" 0 "NETWORK_ERROR")))
    ∧ ((Transport.fetchWithRetry
          (fun i => if i == 0 then .error (.err "Error" "read ECONNRESET") else .ok 7)
          3 1000 3).result = .ok 7
      ∧ (Transport.fetchWithRetry
          (fun i => if i == 0 then .error (.err "Error" "read ECONNRESET") else .ok 7)
          3 1000 3).attempts = 2
      ∧ (Transport.fetchWithRetry
          (fun i => if i == 0 then .error (.err "Error" "read ECONNRESET") else .ok 7)
          3 1000 3).delays = [1000 * 1])
    ∧ ((Transport.fetchWithRetry (fun _ => .error (.err "TypeError" "boom"))
          3 1000 3).result = .error (.err "TypeError" "boom")
      ∧ (Transport.fetchWithRetry (fun _ => .error (.err "TypeError" "boom"))
          3 1000 3).attempts = 1) :=
  C5_retry_and_backoff
    (fun _ => .error (.err "Error" "read ECONNRESET"))
    (fun i => if i == 0 then .error (.err "Error" "read ECONNRESET") else .ok 7)
    (fun _ => .error (.err "TypeError" "boom"))
    3 1000 (.err "Error" "read ECONNRESET") (.err "TypeError" "boom") 7
    (fun i _ => ⟨.err "Error" "read ECONNRESET", rfl, by decide⟩)
    rfl (by decide) rfl (by decide) rfl (by decide)

/-- A lookup succeeds exactly when the key is among the stored keys. -/
theorem lookup_isSome_iff {T : Type} (m : List (String × CacheEntry T)) (k : String) :
    (List.lookup k m).isSome = true ↔ k ∈ m.map Prod.fst := by
  induction m with
  | nil => simp [List.lookup]
  | cons p rest ih =>
    obtain ⟨k', v⟩ := p
    by_cases h : (k == k') = true
    · have he : k = k' := eq_of_beq h
      simp [List.lookup, h, he]
    · have hne : k ≠ k' := by simpa using h
      simp [List.lookup, h, ih, hne]

/-- Deleting a key filters the key list. -/
theorem map_fst_mapDelete {T : Type} (m : List (String × CacheEntry T)) (k : String) :
    (mapDelete m k).map Prod.fst = (m.map Prod.fst).filter (fun x => !(x == k)) := by
  induction m with
  | nil => rfl
  | cons p rest ih =>
    by_cases h : (p.1 == k) = true <;>
      simp [mapDelete, List.filter, h] at ih ⊢ <;> exact ih

/-- Deleting a key absent from a map is a no-op. -/
theorem mapDelete_of_not_mem {T : Type} (m : List (String × CacheEntry T))
    (k : String) (hnotin : k ∉ m.map Prod.fst) : mapDelete m k = m := by
  apply List.filter_eq_self.mpr
  intro a ha
  have hne : a.1 ≠ k := fun e => hnotin (e ▸ List.mem_map_of_mem Prod.fst ha)
  simpa using hne

/-- Deleting a present key from a duplicate-free map removes one entry. -/
theorem length_mapDelete_of_mem {T : Type} (m : List (String × CacheEntry T))
    (k : String) (hnd : (m.map Prod.fst).Nodup) (hmem : k ∈ m.map Prod.fst) :
    (mapDelete m k).length = m.length - 1 := by
  induction m with
  | nil => simp at hmem
  | cons p rest ih =>
    simp only [List.map_cons, List.nodup_cons] at hnd
    by_cases h : (p.1 == k) = true
    · have he : p.1 = k := eq_of_beq h
      have hnotin : k ∉ rest.map Prod.fst := he ▸ hnd.1
      have hfil : mapDelete (p :: rest) k = rest := by
        have h0 : mapDelete rest k = rest := mapDelete_of_not_mem rest k hnotin
        simpa [mapDelete, List.filter, h] using h0
      rw [hfil]
      simp
    · have hb : (p.1 == k) = false := by
        rw [Bool.eq_false_iff]
        exact fun hh => h hh
      have hne : p.1 ≠ k := by simpa using hb
      have hmem2 : k ∈ p.1 :: rest.map Prod.fst := by
        simpa only [List.map_cons] using hmem
      have hmem' : k ∈ rest.map Prod.fst := by
        rcases List.mem_cons.mp hmem2 with h1 | h1
        · exact absurd h1.symm hne
        · exact h1
      have hpos : 1 ≤ rest.length := by
        rcases rest with _ | _
        · simp at hmem'
        · simp
      have hrec := ih hnd.2 hmem'
      have hfil : mapDelete (p :: rest) k = p :: mapDelete rest k := by
        simp [mapDelete, List.filter, hb]
      rw [hfil]
      simp only [List.length_cons]
      omega

/-- Membership after a `Set.delete`. -/
theorem mem_setDelete (l : List String) (k x : String) :
    x ∈ setDelete l k ↔ x ∈ l ∧ x ≠ k := by
  simp [setDelete, List.mem_filter]

/-- `Set.delete` preserves freedom from duplicates. -/
theorem nodup_setDelete (l : List String) (k : String) (h : l.Nodup) :
    (setDelete l k).Nodup :=
  h.filter _

/-- Deleting an absent element is a no-op. -/
theorem setDelete_of_not_mem (l : List String) (k : String) (h : k ∉ l) :
    setDelete l k = l := by
  apply List.filter_eq_self.mpr
  intro a ha
  have : a ≠ k := fun e => h (e ▸ ha)
  simpa using this

/-- Deleting the head of a duplicate-free list yields its tail. -/
theorem setDelete_cons_self (hd : String) (tl : List String) (h : hd ∉ tl) :
    setDelete (hd :: tl) hd = tl := by
  have h0 : setDelete tl hd = tl := setDelete_of_not_mem tl hd h
  simpa [setDelete, List.filter] using h0

/-- Membership after a `Set.add`. -/
theorem mem_setAdd (l : List String) (k x : String) :
    x ∈ setAdd l k ↔ x ∈ l ∨ x = k := by
  unfold setAdd
  by_cases h : k ∈ l
  · have hc : l.contains k = true := by simpa using h
    rw [if_pos hc]
    constructor
    · exact Or.inl
    · rintro (h1 | rfl)
      · exact h1
      · exact h
  · have hc : l.contains k = false := by simpa using h
    rw [if_neg (fun hh => h (by simpa using hh))]
    simp [List.mem_append]

/-- `Set.add` preserves freedom from duplicates. -/
theorem nodup_setAdd (l : List String) (k : String) (h : l.Nodup) :
    (setAdd l k).Nodup := by
  unfold setAdd
  by_cases hm : k ∈ l
  · have hc : l.contains k = true := by simpa using hm
    rw [if_pos hc]
    exact h
  · have hc : l.contains k = false := by simpa using hm
    rw [if_neg (fun hh => hm (by simpa using hh))]
    simp [List.nodup_append, h, hm]

/-- `Map.set` never changes the key list of a map that holds the key. -/
theorem map_fst_mapSet_present {T : Type} (m : List (String × CacheEntry T))
    (k : String) (v : CacheEntry T) (h : (List.lookup k m).isSome = true) :
    (mapSet m k v).map Prod.fst = m.map Prod.fst := by
  unfold mapSet
  rw [if_pos h, List.map_map]
  apply List.map_congr_left
  intro p _
  by_cases hp : (p.1 == k) = true <;> simp [Function.comp, hp]

/-- `Map.set` preserves entry count when the key is present. -/
theorem length_mapSet_present {T : Type} (m : List (String × CacheEntry T))
    (k : String) (v : CacheEntry T) (h : (List.lookup k m).isSome = true) :
    (mapSet m k v).length = m.length := by
  unfold mapSet
  rw [if_pos h, List.length_map]

/-- `delete` preserves well-formedness, never grows the map, and keeps the
configuration. -/
theorem deleteKey_wf {T : Type} (c : LRUCache T) (k : String) (h : CacheWF c) :
    CacheWF (LRUCache.deleteKey c k).1
    ∧ (LRUCache.deleteKey c k).1.cache.length ≤ c.cache.length
    ∧ (LRUCache.deleteKey c k).1.config = c.config := by
  unfold LRUCache.deleteKey
  by_cases hp : (List.lookup k c.cache).isSome = true
  · rw [if_pos hp]
    refine ⟨⟨?_, ?_, ?_, ?_⟩, ?_, rfl⟩
    · show ((mapDelete c.cache k).map Prod.fst).Nodup
      rw [map_fst_mapDelete]
      exact h.nodupKeys.filter _
    · exact nodup_setDelete _ _ h.nodupAO
    · intro x
      show x ∈ (mapDelete c.cache k).map Prod.fst ↔ x ∈ setDelete c.accessOrder k
      rw [map_fst_mapDelete, mem_setDelete]
      constructor
      · intro hx
        obtain ⟨h1, h2⟩ := List.mem_filter.mp hx
        exact ⟨(h.sameMem x).mp h1, by simpa using h2⟩
      · intro hx
        exact List.mem_filter.mpr ⟨(h.sameMem x).mpr hx.1, by simpa using hx.2⟩
    · intro x hx
      exact h.keysNe x ((mem_setDelete _ _ _).mp hx).1
    · show (mapDelete c.cache k).length ≤ _
      exact List.length_filter_le _ _
  · rw [if_neg hp]
    exact ⟨h, le_refl _, rfl⟩

/-- Deleting a present key of a well-formed state removes exactly one entry
and filters the key out of the access order. -/
theorem deleteKey_present {T : Type} (c : LRUCache T) (k : String) (h : CacheWF c)
    (hk : k ∈ cacheKeys c) :
    (LRUCache.deleteKey c k).1.cache.length = c.cache.length - 1
    ∧ (LRUCache.deleteKey c k).1.accessOrder = setDelete c.accessOrder k := by
  have hp : (List.lookup k c.cache).isSome = true := (lookup_isSome_iff _ _).mpr hk
  unfold LRUCache.deleteKey
  rw [if_pos hp]
  exact ⟨length_mapDelete_of_mem _ _ h.nodupKeys hk, rfl⟩

/-- `get` preserves the cache invariant. -/
theorem get_inv {T : Type} (c : LRUCache T) (k : String) (now : Nat)
    (h : CacheInv c) : CacheInv (LRUCache.get c k now).2 := by
  obtain ⟨hwf, hb, hm⟩ := h
  unfold LRUCache.get
  by_cases he : (!c.config.enabled) = true
  · rw [if_pos he]
    exact ⟨hwf, hb, hm⟩
  · rw [if_neg he]
    cases hl : List.lookup k c.cache with
    | none => exact ⟨hwf, hb, hm⟩
    | some entry =>
      show CacheInv (if now - entry.timestamp > entry.ttl
          then ((none : Option T), (LRUCache.deleteKey c k).1)
          else (some entry.data,
            { c with accessOrder := setDelete c.accessOrder k ++ [k] })).2
      by_cases hexp : now - entry.timestamp > entry.ttl
      · rw [if_pos hexp]
        obtain ⟨hwf', hlen, hcfg⟩ := deleteKey_wf c k hwf
        refine ⟨hwf', ?_, ?_⟩
        · show (LRUCache.deleteKey c k).1.cache.length
            ≤ (LRUCache.deleteKey c k).1.config.maxSize
          rw [hcfg]
          omega
        · show 1 ≤ (LRUCache.deleteKey c k).1.config.maxSize
          rw [hcfg]
          exact hm
      · rw [if_neg hexp]
        have hkmem : k ∈ cacheKeys c := (lookup_isSome_iff _ _).mp (by rw [hl]; rfl)
        have hkao : k ∈ c.accessOrder := (hwf.sameMem k).mp hkmem
        refine ⟨⟨hwf.nodupKeys, ?_, ?_, ?_⟩, hb, hm⟩
        · show (setDelete c.accessOrder k ++ [k]).Nodup
          rw [List.nodup_append]
          refine ⟨nodup_setDelete _ _ hwf.nodupAO, List.nodup_singleton _, ?_⟩
          intro x hx hx2
          have h1 := (mem_setDelete _ _ _).mp hx
          have h2 : x = k := by simpa using hx2
          exact h1.2 h2
        · intro x
          show x ∈ cacheKeys c ↔ x ∈ setDelete c.accessOrder k ++ [k]
          rw [List.mem_append, mem_setDelete]
          constructor
          · intro hx
            have hao := (hwf.sameMem x).mp hx
            by_cases hxk : x = k
            · right
              simp [hxk]
            · exact Or.inl ⟨hao, hxk⟩
          · rintro (⟨hao, _⟩ | hxk)
            · exact (hwf.sameMem x).mpr hao
            · have hx : x = k := by simpa using hxk
              exact (hwf.sameMem x).mpr (hx ▸ hkao)
        · intro x hx
          rcases List.mem_append.mp hx with h1 | h1
          · exact hwf.keysNe x ((mem_setDelete _ _ _).mp h1).1
          · have hx2 : x = k := by simpa using h1
            exact hx2 ▸ hwf.keysNe k hkao

/-- Keys never grow under `delete`. -/
theorem deleteKey_keys_subset {T : Type} (c : LRUCache T) (k x : String)
    (hx : x ∈ cacheKeys (LRUCache.deleteKey c k).1) : x ∈ cacheKeys c := by
  unfold LRUCache.deleteKey at hx
  by_cases hp : (List.lookup k c.cache).isSome = true
  · rw [if_pos hp] at hx
    have hx' : x ∈ (mapDelete c.cache k).map Prod.fst := hx
    rw [map_fst_mapDelete] at hx'
    exact (List.mem_filter.mp hx').1
  · rw [if_neg hp] at hx
    exact hx

/-- Deleting a present key filters it out of the key list. -/
theorem cacheKeys_deleteKey_present {T : Type} (c : LRUCache T) (k : String)
    (hk : k ∈ cacheKeys c) :
    cacheKeys (LRUCache.deleteKey c k).1 = setDelete (cacheKeys c) k := by
  have hp := (lookup_isSome_iff c.cache k).mpr hk
  unfold LRUCache.deleteKey
  rw [if_pos hp]
  show (mapDelete c.cache k).map Prod.fst = _
  rw [map_fst_mapDelete]
  rfl

/-- A recency refresh (`delete` + `add` at the recent end) keeps the
access order duplicate-free. -/
theorem nodup_refresh (ao : List String) (key : String) (hnd : ao.Nodup) :
    (setDelete ao key ++ [key]).Nodup := by
  rw [List.nodup_append]
  refine ⟨nodup_setDelete _ _ hnd, List.nodup_singleton _, ?_⟩
  intro x hx hx2
  have h2 : x = key := by simpa using hx2
  exact ((mem_setDelete _ _ _).mp hx).2 h2

/-- A recency refresh of a present key preserves the element set. -/
theorem mem_refresh (ao : List String) (key x : String) (hkao : key ∈ ao) :
    x ∈ setDelete ao key ++ [key] ↔ x ∈ ao := by
  rw [List.mem_append, mem_setDelete]
  constructor
  · rintro (⟨h1, _⟩ | h1)
    · exact h1
    · have hx : x = key := by simpa using h1
      exact hx ▸ hkao
  · intro hx
    by_cases hxk : x = key
    · right
      simp [hxk]
    · exact Or.inl ⟨hx, hxk⟩

/-- A recency refresh introduces no empty key. -/
theorem ne_refresh (ao : List String) (key : String)
    (hne : ∀ x ∈ ao, x ≠ "") (hkne : key ≠ "") :
    ∀ x ∈ setDelete ao key ++ [key], x ≠ "" := by
  intro x hx
  rcases List.mem_append.mp hx with h1 | h1
  · exact hne x ((mem_setDelete _ _ _).mp h1).1
  · have hx2 : x = key := by simpa using h1
    exact hx2 ▸ hkne

/-- At or above capacity, the eviction block of `set` deletes exactly the
first access-order key. -/
theorem evictIfFull_at_capacity {T : Type} (c : LRUCache T) (hwf : CacheWF c)
    (hcap : c.cache.length ≥ c.config.maxSize) (hm : 1 ≤ c.config.maxSize) :
    ∃ hd, c.accessOrder.head? = some hd
      ∧ LRUCache.evictIfFull c = (LRUCache.deleteKey c hd).1
      ∧ hd ∈ cacheKeys c := by
  have hlenpos : 1 ≤ c.cache.length := le_trans hm hcap
  obtain ⟨p, hp⟩ : ∃ p, p ∈ c.cache := by
    cases hc : c.cache with
    | nil => rw [hc] at hlenpos; simp at hlenpos
    | cons a l => exact ⟨a, hc ▸ List.mem_cons_self a l⟩
  have hk1 : p.1 ∈ cacheKeys c := List.mem_map_of_mem Prod.fst hp
  have hao1 : p.1 ∈ c.accessOrder := (hwf.sameMem _).mp hk1
  obtain ⟨hd, tl, hao⟩ : ∃ hd tl, c.accessOrder = hd :: tl := by
    cases haoc : c.accessOrder with
    | nil => rw [haoc] at hao1; simp at hao1
    | cons a l => exact ⟨a, l, rfl⟩
  have hh : c.accessOrder.head? = some hd := by rw [hao]; rfl
  have hhdao : hd ∈ c.accessOrder := hao ▸ List.mem_cons_self hd tl
  have hhdne : hd ≠ "" := hwf.keysNe hd hhdao
  have hhdk : hd ∈ cacheKeys c := (hwf.sameMem hd).mpr hhdao
  refine ⟨hd, hh, ?_, hhdk⟩
  unfold LRUCache.evictIfFull LRUCache.deleteKey
  rw [if_pos hcap, hh, if_pos ((lookup_isSome_iff _ _).mpr hhdk)]
  show (if hd ≠ "" then
      ({ c with cache := mapDelete c.cache hd,
                accessOrder := setDelete c.accessOrder hd }) else c) = _
  rw [if_pos hhdne]

/-- Under the invariant, the eviction block leaves room for one insertion,
preserves well-formedness and the configuration, and never adds keys. -/
theorem evictIfFull_lemma {T : Type} (c : LRUCache T) (hwf : CacheWF c)
    (hb : c.cache.length ≤ c.config.maxSize) (hm : 1 ≤ c.config.maxSize) :
    CacheWF (LRUCache.evictIfFull c)
    ∧ (LRUCache.evictIfFull c).config = c.config
    ∧ (LRUCache.evictIfFull c).cache.length + 1 ≤ c.config.maxSize
    ∧ (∀ x, x ∈ cacheKeys (LRUCache.evictIfFull c) → x ∈ cacheKeys c) := by
  by_cases hfull : c.cache.length ≥ c.config.maxSize
  · obtain ⟨hd, hh, hred, hhdk⟩ := evictIfFull_at_capacity c hwf hfull hm
    rw [hred]
    obtain ⟨hwf', hlen', hcfg'⟩ := deleteKey_wf c hd hwf
    obtain ⟨hlen2, _⟩ := deleteKey_present c hd hwf hhdk
    exact ⟨hwf', hcfg', by omega, fun x hx => deleteKey_keys_subset c hd x hx⟩
  · have hred : LRUCache.evictIfFull c = c := by
      unfold LRUCache.evictIfFull
      rw [if_neg hfull]
    rw [hred]
    exact ⟨hwf, rfl, by omega, fun x hx => hx⟩

/-- The key list after the final insertion. -/
theorem cacheKeys_insertNew {T : Type} (c : LRUCache T) (key : String)
    (entry : CacheEntry T) :
    cacheKeys (LRUCache.insertNew c key entry) = cacheKeys c ++ [key] := by
  unfold LRUCache.insertNew
  show (c.cache ++ [(key, entry)]).map Prod.fst = _
  rw [List.map_append]
  rfl

/-- Inserting a fresh non-empty key into a well-formed state with room
preserves well-formedness; the entry count grows by one and the
configuration is unchanged. -/
theorem insertNew_lemma {T : Type} (c : LRUCache T) (key : String)
    (entry : CacheEntry T) (hwf : CacheWF c) (hkne : key ≠ "")
    (habs : key ∉ cacheKeys c) :
    CacheWF (LRUCache.insertNew c key entry)
    ∧ (LRUCache.insertNew c key entry).cache.length = c.cache.length + 1
    ∧ (LRUCache.insertNew c key entry).config = c.config := by
  have hkaoabs : key ∉ c.accessOrder := fun hh => habs ((hwf.sameMem key).mpr hh)
  unfold LRUCache.insertNew
  refine ⟨⟨?_, ?_, ?_, ?_⟩, ?_, rfl⟩
  · show ((c.cache ++ [(key, entry)]).map Prod.fst).Nodup
    rw [List.map_append, List.nodup_append]
    refine ⟨hwf.nodupKeys, by simp, ?_⟩
    intro x hx hx2
    have hxk : x = key := by simpa using hx2
    exact habs (hxk ▸ hx)
  · exact nodup_setAdd _ _ hwf.nodupAO
  · intro x
    show x ∈ (c.cache ++ [(key, entry)]).map Prod.fst ↔ x ∈ setAdd c.accessOrder key
    rw [List.map_append, List.mem_append, mem_setAdd]
    constructor
    · rintro (h1 | h1)
      · exact Or.inl ((hwf.sameMem x).mp h1)
      · right
        simpa using h1
    · rintro (h1 | h1)
      · exact Or.inl ((hwf.sameMem x).mpr h1)
      · right
        simp [h1]
  · intro x hx
    rcases (mem_setAdd _ _ _).mp hx with h1 | h1
    · exact hwf.keysNe x h1
    · exact h1 ▸ hkne
  · show (c.cache ++ [(key, entry)]).length = _
    simp

/-- `set` on an absent key reduces to evict-then-insert. -/
theorem set_absent_eq {T : Type} (c : LRUCache T) (key : String) (v : T)
    (ttl : Option Nat) (now : Nat) (hen : c.config.enabled = true)
    (habs : key ∉ cacheKeys c) :
    LRUCache.set c key v ttl now
      = LRUCache.insertNew (LRUCache.evictIfFull c) key
          ⟨v, now, ttl.getD c.config.defaultTtl⟩ := by
  unfold LRUCache.set
  rw [if_neg (by simp [hen]),
    if_neg (fun hh => habs ((lookup_isSome_iff _ _).mp hh))]

/-- `set` preserves the cache invariant for non-empty keys. -/
theorem set_inv {T : Type} (c : LRUCache T) (key : String) (v : T)
    (ttl : Option Nat) (now : Nat) (h : CacheInv c) (hk : key ≠ "") :
    CacheInv (LRUCache.set c key v ttl now) := by
  obtain ⟨hwf, hb, hm⟩ := h
  by_cases he : c.config.enabled = true
  · by_cases hl : (List.lookup key c.cache).isSome = true
    · have hred : LRUCache.set c key v ttl now
          = { c with cache := mapSet c.cache key ⟨v, now, ttl.getD c.config.defaultTtl⟩,
                     accessOrder := setDelete c.accessOrder key ++ [key] } := by
        unfold LRUCache.set
        rw [if_neg (by simp [he]), if_pos hl]
      rw [hred]
      have hkmem : key ∈ cacheKeys c := (lookup_isSome_iff _ _).mp hl
      have hkao : key ∈ c.accessOrder := (hwf.sameMem key).mp hkmem
      refine ⟨⟨?_, ?_, ?_, ?_⟩, ?_, hm⟩
      · show ((mapSet c.cache key _).map Prod.fst).Nodup
        rw [map_fst_mapSet_present _ _ _ hl]
        exact hwf.nodupKeys
      · exact nodup_refresh _ _ hwf.nodupAO
      · intro x
        show x ∈ (mapSet c.cache key _).map Prod.fst
          ↔ x ∈ setDelete c.accessOrder key ++ [key]
        rw [map_fst_mapSet_present _ _ _ hl, mem_refresh _ _ _ hkao]
        exact hwf.sameMem x
      · exact ne_refresh _ _ hwf.keysNe hk
      · show (mapSet c.cache key _).length ≤ _
        rw [length_mapSet_present _ _ _ hl]
        exact hb
    · have habs : key ∉ cacheKeys c :=
        fun hh => hl ((lookup_isSome_iff _ _).mpr hh)
      rw [set_absent_eq c key v ttl now he habs]
      obtain ⟨hwf1, hcfg1, hroom1, hsub1⟩ := evictIfFull_lemma c hwf hb hm
      have habs1 : key ∉ cacheKeys (LRUCache.evictIfFull c) :=
        fun hh => habs (hsub1 key hh)
      obtain ⟨hwf2, hlen2, hcfg2⟩ :=
        insertNew_lemma (LRUCache.evictIfFull c) key
          ⟨v, now, ttl.getD c.config.defaultTtl⟩ hwf1 hk habs1
      refine ⟨hwf2, ?_, ?_⟩
      · rw [hlen2, hcfg2, hcfg1]
        omega
      · rw [hcfg2, hcfg1]
        exact hm
  · have hef : c.config.enabled = false := by
      rw [Bool.eq_false_iff]
      exact he
    have hred : LRUCache.set c key v ttl now = c := by
      unfold LRUCache.set
      rw [if_pos (by rw [hef]; rfl)]
    rw [hred]
    exact ⟨hwf, hb, hm⟩

/-- A well-formed non-empty state has a first access-order key, which is a
stored, non-empty key absent from the rest of the order. -/
theorem ao_head_exists {T : Type} (c : LRUCache T) (hwf : CacheWF c)
    (hpos : 1 ≤ c.cache.length) :
    ∃ hd tl, c.accessOrder = hd :: tl ∧ hd ∈ cacheKeys c ∧ hd ≠ "" ∧ hd ∉ tl := by
  obtain ⟨p, hp⟩ : ∃ p, p ∈ c.cache := by
    cases hc : c.cache with
    | nil => rw [hc] at hpos; simp at hpos
    | cons a l => exact ⟨a, hc ▸ List.mem_cons_self a l⟩
  have hk1 : p.1 ∈ cacheKeys c := List.mem_map_of_mem Prod.fst hp
  have hao1 : p.1 ∈ c.accessOrder := (hwf.sameMem _).mp hk1
  obtain ⟨hd, tl, hao⟩ : ∃ hd tl, c.accessOrder = hd :: tl := by
    cases haoc : c.accessOrder with
    | nil => rw [haoc] at hao1; simp at hao1
    | cons a l => exact ⟨a, l, rfl⟩
  have hhdao : hd ∈ c.accessOrder := hao ▸ List.mem_cons_self hd tl
  have hnd := hwf.nodupAO
  rw [hao] at hnd
  exact ⟨hd, tl, hao, (hwf.sameMem hd).mpr hhdao, hwf.keysNe hd hhdao,
    (List.nodup_cons.mp hnd).1⟩

/-- With fuel at least the entry count, the eviction loop of a well-formed
state terminates within the bound, preserving well-formedness and the
configuration, and removing only a least-recently-used prefix of the
access order. -/
theorem evictLoop_total {T : Type} :
    ∀ (fuel : Nat) (c : LRUCache T), CacheWF c → c.cache.length ≤ fuel →
    ∃ c', LRUCache.evictLoop fuel c = some c'
      ∧ CacheWF c' ∧ c'.cache.length ≤ c'.config.maxSize
      ∧ c'.config = c.config ∧ c'.accessOrder.IsSuffix c.accessOrder := by
  intro fuel
  induction fuel with
  | zero =>
    intro c hwf hlen
    refine ⟨c, ?_, hwf, by omega, rfl, List.suffix_refl _⟩
    unfold LRUCache.evictLoop
    rw [if_neg (by omega)]
  | succ f ih =>
    intro c hwf hlen
    by_cases hover : c.cache.length > c.config.maxSize
    · have hpos : 1 ≤ c.cache.length := by omega
      obtain ⟨hd, tl, hao, hhdk, hhdne, hhdtl⟩ := ao_head_exists c hwf hpos
      have hh : c.accessOrder.head? = some hd := by rw [hao]; rfl
      obtain ⟨hwfd, hlend, hcfgd⟩ := deleteKey_wf c hd hwf
      obtain ⟨hlend2, haod⟩ := deleteKey_present c hd hwf hhdk
      have hstep : LRUCache.evictLoop (f + 1) c
          = LRUCache.evictLoop f (LRUCache.deleteKey c hd).1 := by
        show (if c.cache.length > c.config.maxSize then
            match c.accessOrder.head? with
            | some lruKey =>
              if lruKey ≠ "" then LRUCache.evictLoop f (LRUCache.deleteKey c lruKey).1
              else none
            | none => none
          else some c) = _
        rw [if_pos hover, hh]
        show (if hd ≠ "" then LRUCache.evictLoop f (LRUCache.deleteKey c hd).1 else none) = _
        rw [if_pos hhdne]
      rw [hstep]
      obtain ⟨c', heq, hwf', hb', hcfg', hsuf'⟩ :=
        ih (LRUCache.deleteKey c hd).1 hwfd (by omega)
      refine ⟨c', heq, hwf', hb', by rw [hcfg', hcfgd], ?_⟩
      have htl : (LRUCache.deleteKey c hd).1.accessOrder = tl := by
        rw [haod, hao]
        exact setDelete_cons_self hd tl hhdtl
      rw [htl] at hsuf'
      exact hsuf'.trans (by rw [hao]; exact List.suffix_cons hd tl)
    · refine ⟨c, ?_, hwf, by omega, rfl, List.suffix_refl _⟩
      unfold LRUCache.evictLoop
      rw [if_neg hover]

/-- `evictToBound` always succeeds on a well-formed state. -/
theorem evictToBound_lemma {T : Type} (c : LRUCache T) (hwf : CacheWF c) :
    ∃ c', LRUCache.evictToBound c = some c'
      ∧ CacheWF c' ∧ c'.cache.length ≤ c'.config.maxSize
      ∧ c'.config = c.config ∧ c'.accessOrder.IsSuffix c.accessOrder :=
  evictLoop_total (c.cache.length + 1) c hwf (by omega)

/-- The cleared state is well-formed with no entries. -/
theorem clear_wf {T : Type} (c : LRUCache T) : CacheWF (LRUCache.clear c) := by
  refine ⟨List.nodup_nil, List.nodup_nil, fun k => ?_, fun k hk => ?_⟩
  · show k ∈ ([] : List (String × CacheEntry T)).map Prod.fst ↔ k ∈ ([] : List String)
    simp
  · simp only [LRUCache.clear] at hk
    simp at hk

/-- `updateConfig` of a well-formed state always terminates, lands within
the merged bound, and only drops a least-recently-used prefix. -/
theorem updateConfig_lemma {T : Type} (c : LRUCache T) (p : ConfigPatch)
    (hwf : CacheWF c) :
    ∃ c', LRUCache.updateConfig c p = some c'
      ∧ CacheWF c' ∧ c'.cache.length ≤ c'.config.maxSize
      ∧ c'.config = applyPatch c.config p
      ∧ c'.accessOrder.IsSuffix c.accessOrder := by
  unfold LRUCache.updateConfig
  by_cases hen : (applyPatch c.config p).enabled = true
  · rw [if_neg (by simp [hen])]
    have hwf1 : CacheWF ({ c with config := applyPatch c.config p } : LRUCache T) :=
      ⟨hwf.nodupKeys, hwf.nodupAO, hwf.sameMem, hwf.keysNe⟩
    obtain ⟨c', heq, hwf', hb', hcfg', hsuf'⟩ := evictToBound_lemma _ hwf1
    exact ⟨c', heq, hwf', hb', hcfg', hsuf'⟩
  · have hef : (applyPatch c.config p).enabled = false := by
      rw [Bool.eq_false_iff]
      exact hen
    rw [if_pos (by rw [hef]; rfl)]
    obtain ⟨c', heq, hwf', hb', hcfg', hsuf'⟩ :=
      evictToBound_lemma (LRUCache.clear { c with config := applyPatch c.config p })
        (clear_wf _)
    refine ⟨c', heq, hwf', hb', hcfg', ?_⟩
    have hnil : c'.accessOrder = [] := List.suffix_nil.mp hsuf'
    rw [hnil]
    exact List.nil_suffix

/-- Every operation that satisfies its side condition preserves the cache
invariant (and in particular terminates). -/
theorem runOp_inv {T : Type} (c : LRUCache T) (op : CacheOp T)
    (h : CacheInv c) (hop : opOK op) :
    ∃ c', runOp c op = some c' ∧ CacheInv c' := by
  cases op with
  | get k now => exact ⟨_, rfl, get_inv c k now h⟩
  | set k v ttl now => exact ⟨_, rfl, set_inv c k v ttl now h hop⟩
  | del k =>
    obtain ⟨hwf, hb, hm⟩ := h
    obtain ⟨hwf', hlen, hcfg⟩ := deleteKey_wf c k hwf
    refine ⟨_, rfl, hwf', ?_, ?_⟩
    · rw [hcfg]
      omega
    · rw [hcfg]
      exact hm
  | clear =>
    obtain ⟨hwf, hb, hm⟩ := h
    refine ⟨_, rfl, clear_wf c, ?_, hm⟩
    show ([] : List (String × CacheEntry T)).length ≤ _
    simp
  | upd p =>
    obtain ⟨hwf, hb, hm⟩ := h
    obtain ⟨c', heq, hwf', hb', hcfg', _⟩ := updateConfig_lemma c p hwf
    have hm' : 1 ≤ c'.config.maxSize := by
      rw [hcfg']
      show 1 ≤ p.maxSize.getD c.config.maxSize
      cases hpm : p.maxSize with
      | none => simpa using hm
      | some m => simpa using hop m hpm
    exact ⟨c', heq, hwf', hb', hm'⟩

/-- Sequences of conforming operations preserve the invariant and never
diverge. -/
theorem runOps_inv {T : Type} :
    ∀ (ops : List (CacheOp T)) (c : LRUCache T), CacheInv c →
      (∀ op ∈ ops, opOK op) →
      ∃ c', runOps c ops = some c' ∧ CacheInv c' := by
  intro ops
  induction ops with
  | nil => exact fun c h _ => ⟨c, rfl, h⟩
  | cons op rest ih =>
    intro c h hall
    obtain ⟨c1, heq1, h1⟩ := runOp_inv c op h (hall op (by simp))
    obtain ⟨c', heq', h'⟩ := ih c1 h1 (fun o ho => hall o (by simp [ho]))
    refine ⟨c', ?_, h'⟩
    show (match runOp c op with
      | some cnext => runOps cnext rest
      | none => none) = some c'
    rw [heq1]
    exact heq'

/-- A freshly constructed cache with a positive capacity patch satisfies
the invariant. -/
theorem create_inv {T : Type} (p0 : ConfigPatch)
    (h0 : ∀ m, p0.maxSize = some m → 1 ≤ m) : CacheInv (LRUCache.create T p0) := by
  refine ⟨⟨List.nodup_nil, List.nodup_nil, fun k => ?_, fun k hk => ?_⟩, ?_, ?_⟩
  · show k ∈ ([] : List (String × CacheEntry T)).map Prod.fst ↔ k ∈ ([] : List String)
    simp
  · simp only [LRUCache.create] at hk
    simp at hk
  · show ([] : List (String × CacheEntry T)).length ≤ _
    simp
  · show 1 ≤ p0.maxSize.getD 1000
    cases hpm : p0.maxSize with
    | none => simp
    | some m => simpa using h0 m hpm

/-- C6 counterexample: the claim quantifies over **every** configuration,
but constructing a cache with `maxSize = 0` (accepted by the
`Partial<CacheConfig>` constructor) and inserting one entry leaves the size
strictly above `maxSize` — the eviction branch finds no LRU key in the
empty cache and inserts anyway. -/
theorem C6_counterexample :
    (LRUCache.create Nat ⟨some 0, none, none⟩).config.maxSize = 0
    ∧ (LRUCache.set (LRUCache.create Nat ⟨some 0, none, none⟩) "a" 0 none 0).cache.length
        > (LRUCache.set (LRUCache.create Nat ⟨some 0, none, none⟩) "a" 0 none 0).config.maxSize :=
  ⟨rfl, by decide⟩

/-- C6 (amended): for every configuration with capacity at least 1 and
every operation sequence whose inserted keys are non-empty and whose
config updates keep the capacity at least 1, the entry count never exceeds
the configured `maxSize` (after every prefix of the run, with every
`updateConfig` loop terminating); a `set` of a fresh key into a cache at
capacity evicts exactly the least-recently-used (first access-order) key;
shrinking `maxSize` via `updateConfig` immediately evicts
least-recently-used entries (a prefix of the access order) down to the new
bound. -/
theorem C6_lru_size_bound (T : Type) (p0 : ConfigPatch) (ops pre : List (CacheOp T))
    (h0 : ∀ m, p0.maxSize = some m → 1 ≤ m)
    (hops : ∀ op ∈ ops, opOK op)
    (hpre : pre <+: ops) :
    (∃ c', runOps (LRUCache.create T p0) pre = some c'
        ∧ c'.cache.length ≤ c'.config.maxSize)
    ∧ (∀ (c : LRUCache T) (key : String) (v : T) (ttl : Option Nat) (now : Nat),
        CacheWF c → c.config.enabled = true → key ≠ "" → key ∉ cacheKeys c →
        c.cache.length = c.config.maxSize → 1 ≤ c.config.maxSize →
        ∃ hd, c.accessOrder.head? = some hd
          ∧ cacheKeys (LRUCache.set c key v ttl now)
              = setDelete (cacheKeys c) hd ++ [key])
    ∧ (∀ (c : LRUCache T) (q : ConfigPatch), CacheWF c →
        ∃ c', LRUCache.updateConfig c q = some c'
          ∧ c'.cache.length ≤ c'.config.maxSize
          ∧ c'.accessOrder.IsSuffix c.accessOrder) := by
  refine ⟨?_, ?_, ?_⟩
  · obtain ⟨c', heq, hinv⟩ :=
      runOps_inv pre (LRUCache.create T p0) (create_inv p0 h0)
        (fun op hop => hops op (hpre.subset hop))
    exact ⟨c', heq, hinv.2.1⟩
  · intro c key v ttl now hwf hen hk habs hcap hm
    obtain ⟨hd, hh, hred, hhdk⟩ := evictIfFull_at_capacity c hwf (ge_of_eq hcap) hm
    refine ⟨hd, hh, ?_⟩
    rw [set_absent_eq c key v ttl now hen habs, cacheKeys_insertNew, hred,
      cacheKeys_deleteKey_present c hd hhdk]
  · intro c q hwf
    obtain ⟨c', heq, _, hb', _, hsuf'⟩ := updateConfig_lemma c q hwf
    exact ⟨c', heq, hb', hsuf'⟩

/-- C6 witness: a capacity-2 cache filled with three distinct keys stays
within bound at every prefix, with the concrete eviction and shrink
conclusions available for any well-formed state. -/
theorem C6_lru_size_bound_witness :
    (∃ c', runOps (LRUCache.create Nat ⟨some 2, none, none⟩)
        [CacheOp.set "a" 1 none 0, CacheOp.set "b" 2 none 1, CacheOp.set "c" 3 none 2]
        = some c'
        ∧ c'.cache.length ≤ c'.config.maxSize)
    ∧ (∀ (c : LRUCache Nat) (key : String) (v : Nat) (ttl : Option Nat) (now : Nat),
        CacheWF c → c.config.enabled = true → key ≠ "" → key ∉ cacheKeys c →
        c.cache.length = c.config.maxSize → 1 ≤ c.config.maxSize →
        ∃ hd, c.accessOrder.head? = some hd
          ∧ cacheKeys (LRUCache.set c key v ttl now)
              = setDelete (cacheKeys c) hd ++ [key])
    ∧ (∀ (c : LRUCache Nat) (q : ConfigPatch), CacheWF c →
        ∃ c', LRUCache.updateConfig c q = some c'
          ∧ c'.cache.length ≤ c'.config.maxSize
          ∧ c'.accessOrder.IsSuffix c.accessOrder) :=
  C6_lru_size_bound Nat ⟨some 2, none, none⟩
    [CacheOp.set "a" 1 none 0, CacheOp.set "b" 2 none 1, CacheOp.set "c" 3 none 2]
    [CacheOp.set "a" 1 none 0, CacheOp.set "b" 2 none 1, CacheOp.set "c" 3 none 2]
    (fun m hm => by injection hm with h; omega)
    (by
      intro op hop
      simp only [List.mem_cons, List.not_mem_nil, or_false] at hop
      rcases hop with rfl | rfl | rfl
      · show ("a" : String) ≠ ""
        decide
      · show ("b" : String) ≠ ""
        decide
      · show ("c" : String) ≠ ""
        decide)
    (List.prefix_refl _)

/-- While a key is pending, further calls return the pending promise and
leave the state untouched without invoking the factory. -/
theorem deduplicate_pending (d : RequestDeduplicator) (k : String) (p : Nat)
    (h : List.lookup k d.pendingRequests = some p) :
    d.deduplicate k = ⟨p, d, false⟩ := by
  unfold RequestDeduplicator.deduplicate
  rw [h]

/-- Repeated calls on a pending key produce identical promises and never
invoke the factory. -/
theorem runDedup_calls_pending (k : String) (p : Nat) :
    ∀ (n : Nat) (d : RequestDeduplicator),
      List.lookup k d.pendingRequests = some p →
      runDedup d (List.replicate n (DedupEvent.call k))
        = (d, List.replicate n (k, p, false)) := by
  intro n
  induction n with
  | zero => intro d _; rfl
  | succ m ih =>
    intro d h
    show runDedup d (DedupEvent.call k :: List.replicate m (DedupEvent.call k))
      = (d, List.replicate (m + 1) (k, p, false))
    rw [runDedup, deduplicate_pending d k p h]
    rw [ih d h]
    rfl

/-- A fresh key causes registration of a new promise and a factory
invocation. -/
theorem deduplicate_fresh (d : RequestDeduplicator) (k : String)
    (h : List.lookup k d.pendingRequests = none) :
    d.deduplicate k
      = ⟨d.nextPromise,
         ⟨d.pendingRequests ++ [(k, d.nextPromise)], d.nextPromise + 1⟩,
         true⟩ := by
  unfold RequestDeduplicator.deduplicate
  rw [h]

/-- Appending a binding for an unbound key makes it found. -/
theorem lookup_append_self {β : Type} (m : List (String × β)) (k : String) (v : β)
    (h : List.lookup k m = none) : List.lookup k (m ++ [(k, v)]) = some v := by
  induction m with
  | nil => simp [List.lookup]
  | cons q rest ih =>
    obtain ⟨k', w⟩ := q
    by_cases hb : (k == k') = true
    · rw [List.lookup] at h
      rw [hb] at h
      exact absurd h (by simp)
    · have hb' : (k == k') = false := by
        rw [Bool.eq_false_iff]
        exact fun hh => hb hh
      rw [List.lookup] at h
      rw [hb'] at h
      show List.lookup k ((k', w) :: (rest ++ [(k, v)])) = some v
      rw [List.lookup, hb']
      exact ih h

/-- Deleting a key from a string-keyed registry makes lookups on it miss. -/
theorem lookup_filter_out {β : Type} (m : List (String × β)) (k : String) :
    List.lookup k (m.filter (fun p => !(p.1 == k))) = none := by
  induction m with
  | nil => rfl
  | cons q rest ih =>
    obtain ⟨k', w⟩ := q
    by_cases hb : (k' == k) = true
    · simpa [List.filter, hb] using ih
    · have hb' : (k' == k) = false := by
        rw [Bool.eq_false_iff]
        exact fun hh => hb hh
      have hbs : (k == k') = false := by
        rw [beq_eq_false_iff_ne] at hb' ⊢
        exact fun e => hb' e.symm
      simp only [List.filter, hb', Bool.not_false]
      rw [List.lookup, hbs]
      exact ih

/-- Settling removes the registry entry for the key. -/
theorem settle_lookup_none (d : RequestDeduplicator) (k : String) :
    List.lookup k (d.settle k).pendingRequests = none :=
  lookup_filter_out d.pendingRequests k

/-- A second settlement of the same key is a no-op: the entry is removed
exactly once. -/
theorem settle_idem (d : RequestDeduplicator) (k : String) :
    (d.settle k).settle k = d.settle k := by
  unfold RequestDeduplicator.settle
  congr 1
  apply List.filter_eq_self.mpr
  intro a ha
  have ha' : a ∈ List.filter (fun q => !(q.1 == k)) d.pendingRequests := ha
  exact (List.mem_filter.mp ha').2

/-- C7: with the computation for a signature pending, every further
`deduplicate` call returns the same pending promise without invoking the
factory — `n` concurrent callers invoke the factory exactly once (only the
first call) and all receive the identical promise — and on settlement the
registry entry is removed exactly once, after which the next call invokes
the factory afresh. -/
theorem C7_deduplicator (d : RequestDeduplicator) (k : String) (n p : Nat)
    (hfresh : List.lookup k d.pendingRequests = none) (hn : 1 ≤ n) :
    (runDedup d (List.replicate n (DedupEvent.call k))
      = (⟨d.pendingRequests ++ [(k, d.nextPromise)], d.nextPromise + 1⟩,
         (k, d.nextPromise, true) :: List.replicate (n - 1) (k, d.nextPromise, false)))
    ∧ (∀ d' : RequestDeduplicator, List.lookup k d'.pendingRequests = some p →
        d'.deduplicate k = ⟨p, d', false⟩)
    ∧ (∀ d' : RequestDeduplicator,
        List.lookup k (d'.settle k).pendingRequests = none
        ∧ (d'.settle k).settle k = d'.settle k)
    ∧ (((d.deduplicate k).state.settle k).deduplicate k).factoryInvoked = true := by
  refine ⟨?_, fun d' h => deduplicate_pending d' k p h,
    fun d' => ⟨settle_lookup_none d' k, settle_idem d' k⟩, ?_⟩
  · obtain ⟨m, rfl⟩ : ∃ m, n = m + 1 := ⟨n - 1, by omega⟩
    show runDedup d (DedupEvent.call k :: List.replicate m (DedupEvent.call k)) = _
    rw [runDedup, deduplicate_fresh d k hfresh]
    have hlook : List.lookup k
        (d.pendingRequests ++ [(k, d.nextPromise)]) = some d.nextPromise :=
      lookup_append_self d.pendingRequests k d.nextPromise hfresh
    rw [runDedup_calls_pending k d.nextPromise m
      ⟨d.pendingRequests ++ [(k, d.nextPromise)], d.nextPromise + 1⟩ hlook]
    rfl
  · rw [deduplicate_fresh d k hfresh]
    have h2 := settle_lookup_none
      (⟨d.pendingRequests ++ [(k, d.nextPromise)], d.nextPromise + 1⟩ :
        RequestDeduplicator) k
    rw [deduplicate_fresh _ k h2]

/-- C7 witness: three concurrent callers on an empty registry share one
promise with a single factory invocation; settlement then resets the key. -/
theorem C7_deduplicator_witness :
    (runDedup ⟨[], 0⟩ (List.replicate 3 (DedupEvent.call "sig"))
      = (⟨[("sig", 0)], 1⟩,
         ("sig", 0, true) :: List.replicate 2 ("sig", 0, false)))
    ∧ (∀ d' : RequestDeduplicator, List.lookup "sig" d'.pendingRequests = some 0 →
        d'.deduplicate "sig" = ⟨0, d', false⟩)
    ∧ (∀ d' : RequestDeduplicator,
        List.lookup "sig" (d'.settle "sig").pendingRequests = none
        ∧ (d'.settle "sig").settle "sig" = d'.settle "sig")
    ∧ ((((⟨[], 0⟩ : RequestDeduplicator).deduplicate "sig").state.settle
          "sig").deduplicate "sig").factoryInvoked = true :=
  C7_deduplicator ⟨[], 0⟩ "sig" 3 0 rfl (by omega)

/-- Updating an existing entry rebinds the key to the new value. -/
theorem lookup_regUpdate (m : List (String × (Nat × Int))) (k : String)
    (v : Nat × Int) :
    List.lookup k (regUpdate m k v)
      = if (List.lookup k m).isSome then some v else none := by
  induction m with
  | nil => rfl
  | cons q rest ih =>
    obtain ⟨k', w⟩ := q
    show List.lookup k ((if (k' == k) = true then (k', v) else (k', w)) :: regUpdate rest k v)
      = if (List.lookup k ((k', w) :: rest)).isSome then some v else none
    by_cases hb : (k == k') = true
    · have he : k = k' := eq_of_beq hb
      subst he
      rw [if_pos hb]
      simp [List.lookup, hb]
    · have hb' : (k == k') = false := by
        rw [Bool.eq_false_iff]
        exact fun hh => hb hh
      have hb2 : (k' == k) = false := by
        rw [beq_eq_false_iff_ne] at hb' ⊢
        exact fun e => hb' e.symm
      rw [if_neg (by simp [hb2])]
      have hlk : List.lookup k ((k', w) :: rest) = List.lookup k rest := by
        simp [List.lookup, hb']
      have hlk2 : List.lookup k ((k', w) :: regUpdate rest k v)
          = List.lookup k (regUpdate rest k v) := by
        simp [List.lookup, hb']
      rw [hlk, hlk2, ih]

/-- In-place updates do not change the key list. -/
theorem map_fst_regUpdate (m : List (String × (Nat × Int))) (k : String)
    (v : Nat × Int) : (regUpdate m k v).map Prod.fst = m.map Prod.fst := by
  unfold regUpdate
  rw [List.map_map]
  apply List.map_congr_left
  intro q _
  by_cases h : (q.1 == k) = true <;> simp [Function.comp, h]

/-- `getLimiter` on a registered hash returns the stored limiter and bumps
its count in place. -/
theorem getLimiter_present (hashKey : String → String) (r : RegistryState)
    (key : String) (lim : Nat) (rc : Int)
    (h : List.lookup (hashKey key) r.limiters = some (lim, rc)) :
    GlobalRateLimiterRegistry.getLimiter hashKey r key
      = (lim, { r with limiters := regUpdate r.limiters (hashKey key) (lim, rc + 1) }) := by
  unfold GlobalRateLimiterRegistry.getLimiter
  rw [h]

/-- `getLimiter` on an unregistered hash creates and registers a fresh
limiter. -/
theorem getLimiter_absent (hashKey : String → String) (r : RegistryState)
    (key : String) (h : List.lookup (hashKey key) r.limiters = none) :
    GlobalRateLimiterRegistry.getLimiter hashKey r key
      = (r.nextLimiterId,
         ⟨r.limiters ++ [(hashKey key, (r.nextLimiterId, 0 + 1))],
          r.nextLimiterId + 1, r.stopped⟩) := by
  unfold GlobalRateLimiterRegistry.getLimiter
  rw [h]

/-- `cleanup` with remaining references decrements in place. -/
theorem cleanup_present_pos (hashKey : String → String) (r : RegistryState)
    (key : String) (lim : Nat) (rc : Int)
    (h : List.lookup (hashKey key) r.limiters = some (lim, rc)) (hrc : 1 < rc) :
    GlobalRateLimiterRegistry.cleanup hashKey r key
      = { r with limiters := regUpdate r.limiters (hashKey key) (lim, rc - 1) } := by
  unfold GlobalRateLimiterRegistry.cleanup
  rw [h]
  show (if rc - 1 ≤ 0 then _ else _) = _
  rw [if_neg (by omega)]

/-- `cleanup` of the last reference stops the limiter without dropping
queued jobs and removes the entry. -/
theorem cleanup_present_last (hashKey : String → String) (r : RegistryState)
    (key : String) (lim : Nat) (rc : Int)
    (h : List.lookup (hashKey key) r.limiters = some (lim, rc)) (hrc : rc ≤ 1) :
    GlobalRateLimiterRegistry.cleanup hashKey r key
      = ⟨r.limiters.filter (fun q => !(q.1 == hashKey key)),
         r.nextLimiterId, r.stopped ++ [(lim, false)]⟩ := by
  unfold GlobalRateLimiterRegistry.cleanup
  rw [h]
  show (if rc - 1 ≤ 0 then _ else _) = _
  rw [if_pos (by omega)]

/-- `cleanup` of an unregistered hash does nothing. -/
theorem cleanup_absent (hashKey : String → String) (r : RegistryState)
    (key : String) (h : List.lookup (hashKey key) r.limiters = none) :
    GlobalRateLimiterRegistry.cleanup hashKey r key = r := by
  unfold GlobalRateLimiterRegistry.cleanup
  rw [h]

/-- Acquisition can register at most the hash of its own credential. -/
theorem keys_getLimiter (hashKey : String → String) (r : RegistryState)
    (key : String) :
    ∀ x ∈ (GlobalRateLimiterRegistry.getLimiter hashKey r key).2.limiters.map
      Prod.fst, x ∈ r.limiters.map Prod.fst ∨ x = hashKey key := by
  intro x hx
  cases hl : List.lookup (hashKey key) r.limiters with
  | some pr =>
    obtain ⟨lim, rc⟩ := pr
    rw [getLimiter_present hashKey r key lim rc hl] at hx
    have hx' : x ∈ (regUpdate r.limiters (hashKey key) (lim, rc + 1)).map Prod.fst := hx
    rw [map_fst_regUpdate] at hx'
    exact Or.inl hx'
  | none =>
    rw [getLimiter_absent hashKey r key hl] at hx
    have hx' : x ∈ (r.limiters
        ++ [(hashKey key, (r.nextLimiterId, 0 + 1))]).map Prod.fst := hx
    rw [List.map_append] at hx'
    rcases List.mem_append.mp hx' with hcase | hcase
    · exact Or.inl hcase
    · right
      simpa using hcase

/-- Release never adds registry keys. -/
theorem keys_cleanup (hashKey : String → String) (r : RegistryState)
    (key : String) :
    ∀ x ∈ (GlobalRateLimiterRegistry.cleanup hashKey r key).limiters.map Prod.fst,
      x ∈ r.limiters.map Prod.fst := by
  intro x hx
  cases hl : List.lookup (hashKey key) r.limiters with
  | some pr =>
    obtain ⟨lim, rc⟩ := pr
    by_cases hrc : rc ≤ 1
    · rw [cleanup_present_last hashKey r key lim rc hl hrc] at hx
      have hx' : x ∈ (r.limiters.filter
          (fun q => !(q.1 == hashKey key))).map Prod.fst := hx
      obtain ⟨q, hq, hqx⟩ := List.mem_map.mp hx'
      exact hqx ▸ List.mem_map_of_mem Prod.fst (List.mem_of_mem_filter hq)
    · rw [cleanup_present_pos hashKey r key lim rc hl (by omega)] at hx
      have hx' : x ∈ (regUpdate r.limiters (hashKey key) (lim, rc - 1)).map Prod.fst := hx
      rw [map_fst_regUpdate] at hx'
      exact hx'
  | none =>
    rw [cleanup_absent hashKey r key hl] at hx
    exact hx

/-- Every key ever present in the registry is the hash of a credential
some interaction used — never a raw credential-independent string. -/
theorem runReg_keys_hashed (hashKey : String → String) :
    ∀ (ops : List RegOp) (r : RegistryState),
      ∀ x ∈ (runReg hashKey r ops).limiters.map Prod.fst,
        x ∈ r.limiters.map Prod.fst
          ∨ ∃ c, c ∈ ops.map RegOp.cred ∧ x = hashKey c := by
  intro ops
  induction ops with
  | nil => exact fun r x hx => Or.inl hx
  | cons op rest ih =>
    intro r x hx
    cases op with
    | acquire k =>
      rcases ih (GlobalRateLimiterRegistry.getLimiter hashKey r k).2 x hx
        with hcase | ⟨c, hc1, hc2⟩
      · rcases keys_getLimiter hashKey r k x hcase with h2 | h2
        · exact Or.inl h2
        · exact Or.inr ⟨k, by simp [RegOp.cred], h2⟩
      · exact Or.inr ⟨c, by simp [RegOp.cred]; right; simpa using hc1, hc2⟩
    | release k =>
      rcases ih (GlobalRateLimiterRegistry.cleanup hashKey r k) x hx
        with hcase | ⟨c, hc1, hc2⟩
      · exact Or.inl (keys_cleanup hashKey r k x hcase)
      · exact Or.inr ⟨c, by simp [RegOp.cred]; right; simpa using hc1, hc2⟩

/-- C8: for every credential, acquisitions return the one shared limiter
instance — the registry being keyed by the hash of the credential, and
containing only hashes of used credentials, never raw credentials — with
each acquisition incrementing the reference count; a release with other
references outstanding only decrements the count without stopping the
limiter, and the release of the last reference stops the limiter without
dropping queued work and removes the registry entry. -/
theorem C8_rate_limiter_registry (hashKey : String → String) (key : String)
    (r1 r2 r3 r4 : RegistryState) (lim lim3 lim4 : Nat) (rc rc3 : Int)
    (ops : List RegOp)
    (h1 : List.lookup (hashKey key) r1.limiters = some (lim, rc))
    (h2 : List.lookup (hashKey key) r2.limiters = none)
    (h3 : List.lookup (hashKey key) r3.limiters = some (lim3, rc3))
    (h3b : 1 < rc3)
    (h4 : List.lookup (hashKey key) r4.limiters = some (lim4, 1)) :
    ((GlobalRateLimiterRegistry.getLimiter hashKey r1 key).1 = lim
      ∧ List.lookup (hashKey key)
          (GlobalRateLimiterRegistry.getLimiter hashKey r1 key).2.limiters
          = some (lim, rc + 1)
      ∧ (GlobalRateLimiterRegistry.getLimiter hashKey r1 key).2.stopped = r1.stopped)
    ∧ (List.lookup (hashKey key)
          (GlobalRateLimiterRegistry.getLimiter hashKey r2 key).2.limiters
          = some ((GlobalRateLimiterRegistry.getLimiter hashKey r2 key).1, 0 + 1))
    ∧ (List.lookup (hashKey key)
          (GlobalRateLimiterRegistry.cleanup hashKey r3 key).limiters
          = some (lim3, rc3 - 1)
      ∧ (GlobalRateLimiterRegistry.cleanup hashKey r3 key).stopped = r3.stopped)
    ∧ ((GlobalRateLimiterRegistry.cleanup hashKey r4 key).stopped
          = r4.stopped ++ [(lim4, false)]
      ∧ List.lookup (hashKey key)
          (GlobalRateLimiterRegistry.cleanup hashKey r4 key).limiters = none)
    ∧ (∀ x ∈ (runReg hashKey ⟨[], 0, []⟩ ops).limiters.map Prod.fst,
        ∃ c, c ∈ ops.map RegOp.cred ∧ x = hashKey c) := by
  refine ⟨⟨?_, ?_, ?_⟩, ?_, ⟨?_, ?_⟩, ⟨?_, ?_⟩, ?_⟩
  · rw [getLimiter_present hashKey r1 key lim rc h1]
  · rw [getLimiter_present hashKey r1 key lim rc h1]
    show List.lookup (hashKey key)
      (regUpdate r1.limiters (hashKey key) (lim, rc + 1)) = some (lim, rc + 1)
    rw [lookup_regUpdate, if_pos (by rw [h1]; rfl)]
  · rw [getLimiter_present hashKey r1 key lim rc h1]
  · rw [getLimiter_absent hashKey r2 key h2]
    exact lookup_append_self r2.limiters (hashKey key) (r2.nextLimiterId, 0 + 1) h2
  · rw [cleanup_present_pos hashKey r3 key lim3 rc3 h3 h3b]
    show List.lookup (hashKey key)
      (regUpdate r3.limiters (hashKey key) (lim3, rc3 - 1)) = some (lim3, rc3 - 1)
    rw [lookup_regUpdate, if_pos (by rw [h3]; rfl)]
  · rw [cleanup_present_pos hashKey r3 key lim3 rc3 h3 h3b]
  · rw [cleanup_present_last hashKey r4 key lim4 1 h4 (by omega)]
  · rw [cleanup_present_last hashKey r4 key lim4 1 h4 (by omega)]
    exact lookup_filter_out r4.limiters (hashKey key)
  · intro x hx
    rcases runReg_keys_hashed hashKey ops ⟨[], 0, []⟩ x hx with hcase | hcase
    · simp at hcase
    · exact hcase

/-- C8 witness: a toy injective hash, concrete registry states for each
clause, and the trace acquire-acquire-release of one credential. -/
theorem C8_rate_limiter_registry_witness :
    ((GlobalRateLimiterRegistry.getLimiter (fun s => "h" ++ s)
          ⟨[("hK", (5, 1))], 6, []⟩ "K").1 = 5
      ∧ List.lookup ((fun s => "h" ++ s) "K")
          (GlobalRateLimiterRegistry.getLimiter (fun s => "h" ++ s)
            ⟨[("hK", (5, 1))], 6, []⟩ "K").2.limiters = some (5, 1 + 1)
      ∧ (GlobalRateLimiterRegistry.getLimiter (fun s => "h" ++ s)
          ⟨[("hK", (5, 1))], 6, []⟩ "K").2.stopped
          = (⟨[("hK", (5, 1))], 6, []⟩ : RegistryState).stopped)
    ∧ (List.lookup ((fun s => "h" ++ s) "K")
        (GlobalRateLimiterRegistry.getLimiter (fun s => "h" ++ s)
          ⟨[], 0, []⟩ "K").2.limiters
        = some ((GlobalRateLimiterRegistry.getLimiter (fun s => "h" ++ s)
            ⟨[], 0, []⟩ "K").1, 0 + 1))
    ∧ (List.lookup ((fun s => "h" ++ s) "K")
        (GlobalRateLimiterRegistry.cleanup (fun s => "h" ++ s)
          ⟨[("hK", (7, 2))], 8, []⟩ "K").limiters = some (7, 2 - 1)
      ∧ (GlobalRateLimiterRegistry.cleanup (fun s => "h" ++ s)
          ⟨[("hK", (7, 2))], 8, []⟩ "K").stopped
          = (⟨[("hK", (7, 2))], 8, []⟩ : RegistryState).stopped)
    ∧ ((GlobalRateLimiterRegistry.cleanup (fun s => "h" ++ s)
          ⟨[("hK", (9, 1))], 10, []⟩ "K").stopped
          = (⟨[("hK", (9, 1))], 10, []⟩ : RegistryState).stopped ++ [(9, false)]
      ∧ List.lookup ((fun s => "h" ++ s) "K")
          (GlobalRateLimiterRegistry.cleanup (fun s => "h" ++ s)
            ⟨[("hK", (9, 1))], 10, []⟩ "K").limiters = none)
    ∧ (∀ x ∈ (runReg (fun s => "h" ++ s) ⟨[], 0, []⟩
          [RegOp.acquire "K", RegOp.acquire "K", RegOp.release "K"]).limiters.map
            Prod.fst,
        ∃ c, c ∈ [RegOp.acquire "K", RegOp.acquire "K",
            RegOp.release "K"].map RegOp.cred ∧ x = (fun s => "h" ++ s) c) :=
  C8_rate_limiter_registry (fun s => "h" ++ s) "K"
    ⟨[("hK", (5, 1))], 6, []⟩ ⟨[], 0, []⟩ ⟨[("hK", (7, 2))], 8, []⟩
    ⟨[("hK", (9, 1))], 10, []⟩ 5 7 9 1 2
    [RegOp.acquire "K", RegOp.acquire "K", RegOp.release "K"]
    (by decide) (by decide) (by decide) (by decide) (by decide)

/-- C9 (amended): a comma-joined list parsing to more than 20 addresses
makes `getBalance` raise — before any network request is formed — the
plain untyped `Error` with message "Cannot query more than 20 addresses at
once" (not the typed `ValidationError`). -/
theorem C9_too_many_addresses (address : String) (tag : Option String)
    (h : (parsedAddresses address).length > 20) :
    Account.getBalance address tag
      = .error (.plain "Cannot query more than 20 addresses at once") := by
  unfold Account.getBalance
  rw [if_neg (by omega), if_pos (by omega), if_pos h]

/-- C9 counterexample: 21 comma-joined valid addresses make `getBalance`
throw — before any network call — a plain untyped `Error`, not the typed
`ValidationError` the claim names: the count guard in `getBalance` uses
`new Error(...)` and runs before `Validators` ever sees the list. -/
theorem C9_counterexample :
    Account.getBalance addr21 none
      = .error (.plain "Cannot query more than 20 addresses at once")
    ∧ ∀ msg, Account.getBalance addr21 none ≠ .error (.validation msg) := by
  have he : Account.getBalance addr21 none
      = .error (.plain "Cannot query more than 20 addresses at once") := by
    unfold Account.getBalance
    rw [if_neg (by decide), if_pos (by decide), if_pos (by decide)]
  refine ⟨he, fun msg h => ?_⟩
  rw [he] at h
  exact AccountError.noConfusion (congrArg (fun e =>
    match e with
    | .error x => x
    | .ok _ => AccountError.plain "") h)

/-- C9 witness: the same 21-address list through the amended theorem. -/
theorem C9_too_many_addresses_witness :
    Account.getBalance addr21 (some "latest")
      = .error (.plain "Cannot query more than 20 addresses at once") :=
  C9_too_many_addresses addr21 (some "latest") (by decide)

/-- C10: for every string on which `Number` yields NaN, the non-monetary
`NumberStringSchema` parses successfully and returns 0 rather than failing
— so count-style fields such as a block countdown's `RemainingBlock`
silently default to zero on unparsable numeric strings. -/
theorem C10_number_string_silent_zero (s : String)
    (h : jsToNumber s = none) :
    NumberStringSchema.parse s = .finite 0
    ∧ ∀ r : BlockCountdownRaw, r.RemainingBlock = s →
        (BlockCountdownSchema.parse r).RemainingBlock = .finite 0 := by
  constructor
  · unfold NumberStringSchema.parse
    rw [h]
  · intro r hr
    show NumberStringSchema.parse r.RemainingBlock = .finite 0
    rw [hr]
    unfold NumberStringSchema.parse
    rw [h]

/-- C10 witness: `Number("abc")` is NaN, and the schema turns it into 0 in
a concrete countdown payload. -/
theorem C10_number_string_silent_zero_witness :
    NumberStringSchema.parse "abc" = .finite 0
    ∧ ∀ r : BlockCountdownRaw, r.RemainingBlock = "abc" →
        (BlockCountdownSchema.parse r).RemainingBlock = .finite 0 :=
  C10_number_string_silent_zero "abc" rfl

end EtherscanSDK
